import Mathlib

/-!
Shallow embedding of the HuntersDesingsPaid Discord bot sources
(`main.py`, `staff_listen.py`, `matchday_module.py`) and proofs about the
module-lifecycle subsystem, the staff-list pagination and persistence code,
and the matchday image resizing arithmetic.

Conventions of the embedding:
* Python dicts become association lists (`List (String × _)`) with
  insertion-order semantics (`getVal`, `dictSet`, `dictErase`).
* Side effects relevant to the claims (running a module `setup`, running a
  `teardown`, attempting `bot.tree.sync`) are recorded in an event trace.
* `_load_module` recurses through dependency lists; the Lean model uses a
  fuel parameter, returning `none` when fuel runs out (the Python analogue
  is the interpreter recursion limit on cyclic dependency graphs).
* Numeric code from `_resize_image` runs on Python floats (IEEE-754
  binary64).  The embedding models a binary64 value as the rational it
  denotes and every float operation (int-to-float conversion, division,
  multiplication) as the exact rational result rounded to 53 significant
  bits with round-half-to-even (`roundFloat`); overflow and subnormals
  are irrelevant in the claimed range and are not modelled.  `int(...)`
  truncation of a nonnegative float is `Rat.floor` followed by `toNat`.
-/

namespace Bot

/-- Association-list lookup, modelling Python `dict` access / `in`. -/
def getVal {β : Type} (l : List (String × β)) (k : String) : Option β :=
  match l with
  | [] => none
  | (k', v) :: r => if k' = k then some v else getVal r k

/-- Overwrite every entry whose key is `k` with `(k, v)`, keeping
positions. -/
def setKey {β : Type} : List (String × β) → String → β → List (String × β)
  | [], _, _ => []
  | (a, b) :: r, k, v =>
    if a = k then (k, v) :: setKey r k v else (a, b) :: setKey r k v

/-- Python `dict[k] = v`: overwrite in place if the key exists (keeping its
position), otherwise append at the end (insertion order). -/
def dictSet {β : Type} (l : List (String × β)) (k : String) (v : β) :
    List (String × β) :=
  if (getVal l k).isSome then setKey l k v else l ++ [(k, v)]

/-- Python `del d[k]`. -/
def dictErase {β : Type} : List (String × β) → String → List (String × β)
  | [], _ => []
  | (a, b) :: r, k =>
    if a = k then dictErase r k else (a, b) :: dictErase r k

/-- Outcome of running a module's `setup(bot)` coroutine
(`main.py` lines 275-294): success, a `discord.ClientException` whose
message matches `Cog named '…' already loaded` (carrying the cog name the
regex extracts, if any), or any other exception. -/
inductive SetupResult where
  | ok : SetupResult
  | alreadyLoadedError : Option String → SetupResult
  | raiseError : SetupResult
deriving DecidableEq

/-- Static content of a module file under `modules/`, as far as
`ModuleManager` inspects it: the optional `DEPENDENCIES` list, whether
`importlib` spec creation and top-level execution succeed, whether the
module has `setup` / `teardown` attributes, what running `setup` does, and
the cog name `_extract_cog_name` finds in the file text. -/
structure ModuleFile where
  deps : Option (List String)
  spec_ok : Bool
  exec_ok : Bool
  has_setup : Bool
  setupResult : SetupResult
  has_teardown : Bool
  cog_name : Option String
deriving DecidableEq

/-- Environment of a `ModuleManager` run: the files present in the module
folder and whether PIL is importable (`check_module_requirements`). -/
structure Env where
  files : List (String × ModuleFile)
  pil_installed : Bool
deriving DecidableEq

/-- A command registered in `bot.tree`; `cmdModule` models
`getattr(command, 'module', None)`. -/
structure Command where
  name : String
  cmdModule : Option String
deriving DecidableEq

/-- Observable side effects the claims talk about. -/
inductive Event where
  | setupEvt : String → Event
  | teardownEvt : String → Event
  | syncEvt : Event
deriving DecidableEq

/-- The mutable state of `ModuleManager.__init__` (`main.py` 182-189)
together with the bot command tree and the event trace. -/
structure St where
  modules : List (String × ModuleFile)
  loading_errors : List String
  module_dependencies : List (String × List String)
  required_modules : List String
  loaded_cogs : List String
  tree : List Command
  trace : List Event
deriving DecidableEq

def pushError (st : St) (e : String) : St :=
  { st with loading_errors := st.loading_errors ++ [e] }

def pushEvent (st : St) (e : Event) : St :=
  { st with trace := st.trace ++ [e] }

/-- `main.py` 220-229: only `matchday_module` has a requirement (PIL). -/
def check_module_requirements (env : Env) (m : String) : Bool :=
  if m = "matchday_module" then env.pil_installed else true

/-- `main.py` 304-323: `_extract_cog_name` reads the module's file; a
missing or unreadable file yields `None`, otherwise the regex result. -/
def extract_cog_name (env : Env) (m : String) : Option String :=
  match getVal env.files m with
  | none => none
  | some f => f.cog_name

/-- The `for dependency in dependencies` loop of `_load_module`
(`main.py` 258-265), parameterised by the recursive loader so that the
loop itself is structurally recursive.  `allLoaded = some (true, st)`
means the loop finished; `some (false, st)` means a dependency load
returned `False` (the error being appended there, as in the Python);
`none` propagates fuel exhaustion. -/
def loadDepsF (loadF : St → String → Option (Bool × St)) (m : String) :
    St → List String → Option (Bool × St)
  | st, [] => some (true, st)
  | st, d :: rest =>
    if (getVal st.modules d).isSome then loadDepsF loadF m st rest
    else
      match loadF st d with
      | none => none
      | some (true, st') => loadDepsF loadF m st' rest
      | some (false, st') =>
          some (false, pushError st'
            ("Modul " ++ m ++ " benoetigt " ++ d ++
              ", welches nicht geladen werden konnte."))

/-- `main.py` 267-297: the registration tail of `_load_module`, reached
once dependencies are settled: the `setup` attribute check, the
duplicate-cog guard, running `setup` and recording the module. -/
def registerPhase (env : Env) (m : String) (f : ModuleFile) (st2 : St) :
    Bool × St :=
  if f.has_setup = false then
    (false, pushError st2 ("Modul " ++ m ++ " hat keine setup-Funktion."))
  else
    let cog := extract_cog_name env m
    let cogBlocked :=
      match cog with
      | some c => !c.isEmpty && st2.loaded_cogs.contains c
      | none => false
    if cogBlocked then (false, st2)
    else
      let st3 := pushEvent st2 (Event.setupEvt m)
      match f.setupResult with
      | .ok =>
        let st4 :=
          match cog with
          | some c =>
            if c.isEmpty then st3
            else { st3 with loaded_cogs := st3.loaded_cogs ++ [c] }
          | none => st3
        (true, { st4 with modules := dictSet st4.modules m f })
      | .alreadyLoadedError co =>
        let st4 :=
          match co with
          | some c => { st3 with loaded_cogs := st3.loaded_cogs ++ [c] }
          | none => st3
        (false, st4)
      | .raiseError =>
        (false, pushError st3 ("Fehler beim Laden von " ++ m ++ "."))

/-- `main.py` 254-256: record a declared `DEPENDENCIES` list before the
dependency loop runs. -/
def recordDeps (st : St) (m : String) : Option (List String) → St
  | some ds =>
      { st with module_dependencies := dictSet st.module_dependencies m ds }
  | none => st

/-- `main.py` 231-303: `ModuleManager._load_module`, with a fuel bound on
the recursion through dependencies.  Returns `none` when fuel runs out
(cyclic dependency graphs), otherwise the Python return value and the
state after the call. -/
def loadModuleRec (env : Env) : Nat → St → String → Option (Bool × St)
  | 0, _, _ => none
  | fuel + 1, st, m =>
    if (getVal st.modules m).isSome then some (true, st)
    else if check_module_requirements env m = false then some (false, st)
    else
      match getVal env.files m with
      | none =>
          some (false, pushError st ("Modul " ++ m ++ " nicht gefunden."))
      | some f =>
        if f.spec_ok = false then
          some (false, pushError st
            ("Fehler beim Laden der Spezifikation fuer Modul " ++ m ++ "."))
        else if f.exec_ok = false then
          some (false, pushError st ("Fehler beim Laden von " ++ m ++ "."))
        else
          let st1 := recordDeps st m f.deps
          let depRes :=
            match f.deps with
            | some ds =>
                loadDepsF (fun s d => loadModuleRec env fuel s d) m st1 ds
            | none => some (true, st1)
          match depRes with
          | none => none
          | some (false, st2) => some (false, st2)
          | some (true, st2) => some (registerPhase env m f st2)

/-- `main.py` 371-374 (also 328-331): the loaded modules whose recorded
dependency list mentions `m`. -/
def dependent_modules (st : St) (m : String) : List String :=
  (st.module_dependencies.filter
    (fun p => p.2.contains m && (getVal st.modules p.1).isSome)).map (·.1)

/-- `main.py` 386-390 (also 336-340): run the module's `teardown` if it
has one; exceptions from it are caught and only logged. -/
def teardownStep (s : St) (m : String) (modv : ModuleFile) : St :=
  if modv.has_teardown then pushEvent s (Event.teardownEvt m) else s

/-- `main.py` 396-399 (also 348-351): drop the module's cog name from
`loaded_cogs` (Python truthiness: an empty name is skipped). -/
def cogErase (env : Env) (s : St) (m : String) : St :=
  match extract_cog_name env m with
  | some c =>
    if ¬c.isEmpty ∧ c ∈ s.loaded_cogs then
      { s with loaded_cogs := s.loaded_cogs.erase c }
    else s
  | none => s

/-- `main.py` 392-394: remove from `bot.tree` every command whose
`module` attribute equals `m` (removal is by command name). -/
def removeModuleCommands (st : St) (m : String) : St :=
  let names := (st.tree.filter (fun c => c.cmdModule == some m)).map (·.name)
  { st with tree := st.tree.filter (fun c => !(names.contains c.name)) }

/-- `main.py` 368-410: `ModuleManager.unload_module`. -/
def unload_module (env : Env) (st : St) (m : String) : Bool × St :=
  match getVal st.modules m with
  | none => (false, st)
  | some modv =>
    let dm := dependent_modules st m
    if dm ≠ [] ∧ m ∉ st.required_modules then (false, st)
    else if m ∈ st.required_modules then (false, st)
    else
      let st1 := teardownStep st m modv
      let st2 := removeModuleCommands st1 m
      let st3 := cogErase env st2 m
      let st4 := { st3 with modules := dictErase st3.modules m }
      (true, pushEvent st4 Event.syncEvt)

/-- `main.py` 412-425: `ModuleManager.load_module`. -/
def load_module (env : Env) (fuel : Nat) (st : St) (m : String) :
    Option (Bool × St) :=
  if (getVal st.modules m).isSome then some (true, st)
  else
    match loadModuleRec env fuel st m with
    | none => none
    | some (true, st') => some (true, pushEvent st' Event.syncEvt)
    | some (false, st') => some (false, st')

/-- `main.py` 333-334: unload every dependent module, ignoring results. -/
def unloadAll (env : Env) (st : St) (ds : List String) : St :=
  ds.foldl (fun s d => (unload_module env s d).2) st

/-- `main.py` 356-357: re-load each dependent module, ignoring the boolean
results; fuel exhaustion propagates. -/
def loadAllF (loadF : St → String → Option (Bool × St)) :
    St → List String → Option St
  | st, [] => some st
  | st, d :: rest =>
    match loadF st d with
    | none => none
    | some (_, st') => loadAllF loadF st' rest

/-- `main.py` 325-366: `ModuleManager.reload_module`. -/
def reload_module (env : Env) (fuel : Nat) (st : St) (m : String) :
    Option (Bool × St) :=
  match getVal st.modules m with
  | none => some (false, st)
  | some _ =>
    let dm := dependent_modules st m
    let st1 := unloadAll env st dm
    match getVal st1.modules m with
    | none => none
    | some modv =>
      let st2 := teardownStep st1 m modv
      let st3 := removeModuleCommands st2 m
      let st4 := cogErase env st3 m
      let st5 := { st4 with modules := dictErase st4.modules m }
      match loadModuleRec env fuel st5 m with
      | none => none
      | some (result, st6) =>
        match loadAllF (fun s d => loadModuleRec env fuel s d) st6 dm with
        | none => none
        | some st7 =>
          if result then some (result, pushEvent st7 Event.syncEvt)
          else some (result, st7)

end Bot

namespace Bot

/-- `main.py` 850-914: the retry loop in `main()`.  The input list gives
the outcome of each successive startup attempt; the result is the list of
`asyncio.sleep` delays performed, in order.  `retry_count` starts at 0,
`max_retries` is 5, `retry_delay` starts at 5 and doubles after a generic
startup exception (but not after an unexpected disconnect). -/
inductive RunOutcome where
  | cleanShutdown : RunOutcome
  | unexpectedDisconnect : RunOutcome
  | loginFailure : RunOutcome
  | noToken : RunOutcome
  | otherError : RunOutcome
deriving DecidableEq

def mainLoop (outs : List RunOutcome) (retry_count retry_delay : Nat) :
    List Nat :=
  if 5 ≤ retry_count then []
  else
    match outs with
    | [] => []
    | o :: rest =>
      match o with
      | .noToken => []
      | .cleanShutdown => []
      | .loginFailure => []
      | .unexpectedDisconnect =>
          retry_delay :: mainLoop rest (retry_count + 1) retry_delay
      | .otherError =>
          if retry_count + 1 < 5 then
            retry_delay :: mainLoop rest (retry_count + 1) (retry_delay * 2)
          else []

end Bot

namespace StaffList

/-- A row of the `list_roles` table (`staff_listen.py`). -/
structure Row where
  list_id : Int
  role_id : Int
  custom_name : Option String
deriving DecidableEq

/-- `staff_listen.py` 156-171: `add_role_to_list`.  Returns the Python
return value and the table after the transaction. -/
def add_role_to_list (t : List Row) (lid rid : Int) (cn : Option String) :
    Bool × List Row :=
  if t.any (fun r => r.list_id == lid && r.role_id == rid) then
    match cn with
    | none => (false, t)
    | some nm =>
        (false, t.map (fun r =>
          if r.list_id == lid && r.role_id == rid then
            { r with custom_name := some nm }
          else r))
  else (true, t ++ [⟨lid, rid, cn⟩])

/-- Python `line[i:i+max_length]` chunking loop (`staff_listen.py`
237-242): all chunks but the last are emitted, the last becomes the new
`current_part`.  Guarded against `maxLen = 0` (Python `range` with step 0
raises there). -/
def chunkPieces (maxLen : Nat) (l : List Char) :
    List (List Char) × List Char :=
  if maxLen = 0 ∨ l.length ≤ maxLen then ([], l)
  else
    let rest := chunkPieces maxLen (l.drop maxLen)
    (l.take maxLen :: rest.1, rest.2)
termination_by l.length
decreasing_by
  simp only [List.length_drop]
  omega

/-- Python `text.split('\n')`. -/
def splitNl : List Char → List (List Char)
  | [] => [[]]
  | c :: r =>
    if c = '\n' then [] :: splitNl r
    else
      match splitNl r with
      | [] => [[c]]
      | g :: gs => (c :: g) :: gs

/-- The body of the `for line in lines` loop of `split_long_text`
(`staff_listen.py` 229-252), acting on the state
`(parts, current_part)`. -/
def splitStep (maxLen : Nat) (acc : List (List Char) × List Char)
    (line : List Char) : List (List Char) × List Char :=
  let ps := acc.1
  let cur := acc.2
  if maxLen < line.length then
    let ps1 := if cur.isEmpty then ps else ps ++ [cur]
    let pieces := chunkPieces maxLen line
    (ps1 ++ pieces.1, pieces.2)
  else
    if maxLen < cur.length + line.length + 1 then (ps ++ [cur], line)
    else if cur.isEmpty then (ps, line) else (ps, cur ++ '\n' :: line)

/-- `staff_listen.py` 220-258: `split_long_text`. -/
def split_long_text (text : List Char) (maxLen : Nat) :
    List (List Char) :=
  if text.length ≤ maxLen then [text]
  else
    let res := (splitNl text).foldl (splitStep maxLen) ([], [])
    if res.2.isEmpty then res.1 else res.1 ++ [res.2]

/-- A guild member as the embed generator sees it. -/
structure Member where
  mention : String
  display_name : String
deriving DecidableEq

/-- A guild role: identity, name and current member list. -/
structure Role where
  id : Int
  name : String
  members : List Member
deriving DecidableEq

structure Guild where
  roles : List Role
deriving DecidableEq

/-- `discord.Guild.get_role`. -/
def Guild.get_role (g : Guild) (rid : Int) : Option Role :=
  g.roles.find? (fun r => r.id == rid)

/-- A row of the `lists` table as unpacked at `staff_listen.py` 262. -/
structure ListData where
  list_id : Int
  name : String
  title : String
  color_str : String
  sorting_alphabetical : Bool
  show_usernames : Bool
deriving DecidableEq

/-- The embed model: what `generate_list_embeds` sets on a
`discord.Embed`. -/
structure Embed where
  title : String
  color : Nat
  description : Option String
  fields : List (String × String)
  footer : Option String
deriving DecidableEq

def Embed.add_field (e : Embed) (n v : String) : Embed :=
  { e with fields := e.fields ++ [(n, v)] }

def hexDigit (c : Char) : Option Nat :=
  if '0' ≤ c ∧ c ≤ '9' then some (c.toNat - '0'.toNat)
  else if 'a' ≤ c ∧ c ≤ 'f' then some (c.toNat - 'a'.toNat + 10)
  else if 'A' ≤ c ∧ c ≤ 'F' then some (c.toNat - 'A'.toNat + 10)
  else none

/-- `int(color_str.lstrip('#'), 16)` restricted to plain hex digit
strings; anything else raises `ValueError` in Python, modelled as
`none`. -/
def parseHex (s : List Char) : Option Nat :=
  if s.isEmpty then none
  else
    s.foldl
      (fun acc c =>
        match acc, hexDigit c with
        | some a, some d => some (a * 16 + d)
        | _, _ => none)
      (some 0)

/-- `staff_listen.py` 264-268: parse the color string, falling back to
Discord blue. -/
def parseColor (color_str : String) : Nat :=
  match parseHex (color_str.data.dropWhile (· = '#')) with
  | some n => n
  | none => 0x5865F2

/-- Stable insertion keeping equal keys in encounter order, modelling
`list.sort(key=...)`. -/
def insertByKey {α : Type} (key : α → String) (a : α) :
    List α → List α
  | [] => [a]
  | b :: r => if key a < key b then a :: b :: r else b :: insertByKey key a r

def sortByKey {α : Type} (key : α → String) (l : List α) : List α :=
  l.foldl (fun acc x => insertByKey key x acc) []

/-- `staff_listen.py` 320-327: one formatted member line. -/
def fmtMember (show_usernames : Bool) (mem : Member) : String :=
  if show_usernames then "• " ++ mem.mention ++ " | " ++ mem.display_name
  else "• " ++ mem.mention

/-- `staff_listen.py` 298-299. -/
def separatorLine : String := "\n▬▬▬▬▬▬▬▬▬▬▬▬▬▬▬▬▬▬▬▬"

/-- The repeated pattern at `staff_listen.py` 308-315 / 335-342 /
348-361: flush the current embed when it already has `MAX_FIELDS = 25`
fields, then add the next field.  State is
`(all_embeds, current_embed, current_fields)`. -/
def flushAdd (title : String) (color : Nat)
    (stt : List Embed × Embed × Nat) (n v : String) :
    List Embed × Embed × Nat :=
  let all := stt.1
  let cur := stt.2.1
  let cf := stt.2.2
  if 25 ≤ cf then
    (all ++ [cur],
      Embed.add_field ⟨title, color, none, [], none⟩ n v, 1)
  else (all, cur.add_field n v, cf + 1)

/-- `staff_listen.py` 363-365: close the final embed if it holds any
field. -/
def pagesOf (res : List Embed × Embed × Nat) : List Embed :=
  if 0 < res.2.2 then res.1 ++ [res.2.1] else res.1

/-- `staff_listen.py` 367-370: page footers when there is more than one
embed. -/
def addFooters (all1 : List Embed) : List Embed :=
  if 1 < all1.length then
    all1.enum.map
      (fun p =>
        let f := "Seite " ++ toString (p.1 + 1) ++ "/" ++
          toString all1.length
        { p.2 with footer := some f })
  else all1

/-- The body of the `for role, display_name in role_data` loop
(`staff_listen.py` 301-361). -/
def stepRole (sorting show_usernames : Bool) (title : String)
    (color : Nat) (stt : List Embed × Embed × Nat)
    (rd : Role × String) : List Embed × Embed × Nat :=
  let role := rd.1
  let dn := rd.2
  let mems :=
    if sorting then sortByKey (fun mb => mb.display_name.toLower) role.members
    else role.members
  if mems.isEmpty then
    flushAdd title color stt dn ("Keine Mitglieder" ++ separatorLine)
  else
    let member_list :=
      String.intercalate "\n" (mems.map (fmtMember show_usernames))
    if member_list.length ≤ 1024 then
      flushAdd title color stt dn (member_list ++ separatorLine)
    else
      let parts :=
        (split_long_text member_list.data 1000).map (fun l => String.mk l)
      parts.enum.foldl
        (fun s p =>
          let fieldName :=
            if p.1 = 0 then dn
            else dn ++ " (Fortsetzung " ++ toString (p.1 + 1) ++ ")"
          let v :=
            if p.1 = parts.length - 1 then p.2 ++ separatorLine else p.2
          flushAdd title color s fieldName v)
        stt

/-- `staff_listen.py` 260-375: `generate_list_embeds`.  The `list_roles`
table stands in for `get_roles_for_list`. -/
def generate_list_embeds (table : List Row) (g : Guild) (ld : ListData)
    (page : Int) : List Embed × Int :=
  let color := parseColor ld.color_str
  let role_entries :=
    (table.filter (fun r => r.list_id == ld.list_id)).map
      (fun r => (r.role_id, r.custom_name))
  if role_entries.isEmpty then
    ([{ title := ld.title, color := color,
        description := some "📭 Keine Rollen in dieser Liste.",
        fields := [], footer := none }], 0)
  else
    let role_data := role_entries.filterMap
      (fun p =>
        (g.get_role p.1).map
          (fun role =>
            (role,
              match p.2 with
              | some c => if c.isEmpty then role.name else c
              | none => role.name)))
    if role_data.isEmpty then
      ([{ title := ld.title, color := color,
          description := some "⚠️ Keine gueltigen Rollen in dieser Liste.",
          fields := [], footer := none }], 0)
    else
      let role_data1 :=
        if ld.sorting_alphabetical then
          sortByKey (fun rd => rd.2.toLower) role_data
        else role_data
      let emptyEmbed : Embed :=
        { title := ld.title, color := color, description := none,
          fields := [], footer := none }
      let all2 := addFooters (pagesOf (role_data1.foldl
        (stepRole ld.sorting_alphabetical ld.show_usernames ld.title color)
        ([], emptyEmbed, 0)))
      let page1 : Int :=
        if all2.isEmpty then 0
        else max 0 (min page ((all2.length : Int) - 1))
      (all2, page1)

end StaffList

namespace Matchday

/-- Width and height of a PIL image. -/
structure PILImage where
  width : Nat
  height : Nat
deriving DecidableEq

end Matchday

namespace Bot

/-- Number of `bot.tree.sync()` attempts recorded in a trace. -/
def syncCount (tr : List Event) : Nat := tr.count Event.syncEvt

/-- Number of times module `m`'s `setup` coroutine was run. -/
def setupCount (m : String) (tr : List Event) : Nat :=
  tr.count (Event.setupEvt m)

/-- No module file in the environment lists `m` among its
`DEPENDENCIES`. -/
def noDepOn (env : Env) (m : String) : Prop :=
  ∀ p ∈ env.files, ∀ l, p.2.deps = some l → m ∉ l

instance (env : Env) (m : String) : Decidable (noDepOn env m) := by
  unfold noDepOn; infer_instance

/-- A module file with no dependencies and a working setup. -/
def fPlain : ModuleFile := ⟨none, true, true, true, .ok, false, none⟩

/-- A module file depending on module `a`. -/
def fDepA : ModuleFile := ⟨some ["a"], true, true, true, .ok, false, none⟩

/-- Fixture: module `a` is loaded and its recorded dependency list names
`a` itself (no other module mentions it). -/
def envC1 : Env := ⟨[("a", fDepA)], true⟩

def stC1 : St :=
  ⟨[("a", fDepA)], [], [("a", ["a"])], ["matchday_module"], [], [], []⟩

/-- Fixture: a loaded standalone module `b` with nothing depending on
it. -/
def stPlainB : St :=
  ⟨[("b", fPlain)], [], [], ["matchday_module"], [], [], []⟩

/-- Fixture for the reload counterexample: `a` and `b` are loaded and `b`
records a dependency on `a`. -/
def envC5 : Env := ⟨[("a", fPlain), ("b", fDepA)], true⟩

def stC5 : St :=
  ⟨[("a", fPlain), ("b", fDepA)], [], [("b", ["a"])], ["matchday_module"],
    [], [], []⟩

/-- Fixture for the duplicate-cog claim: module `m`'s file declares cog
`C`, which is already registered. -/
def fCogC : ModuleFile := ⟨none, true, true, true, .ok, false, some "C"⟩

def envC3 : Env := ⟨[("m", fCogC)], true⟩

def stC3 : St := ⟨[], [], [], ["matchday_module"], ["C"], [], []⟩

/-- Fixtures for the dependency-tracking claim: `m` depends on `a`; in
`envC4bad` the file for `a` is missing, so the dependency load fails. -/
def fDepsA2 : ModuleFile := ⟨some ["a"], true, true, true, .ok, false, none⟩

def envC4 : Env := ⟨[("m", fDepsA2), ("a", fPlain)], true⟩

def envC4bad : Env := ⟨[("m", fDepsA2)], true⟩

def stEmpty : St := ⟨[], [], [], ["matchday_module"], [], [], []⟩

/-- The state after successfully loading `m` (and its dependency `a`)
from `envC4` out of the empty state. -/
def stC4res : St :=
  ⟨[("a", fPlain), ("m", fDepsA2)], [], [("m", ["a"])],
    ["matchday_module"], [], [],
    [Event.setupEvt "a", Event.setupEvt "m"]⟩

/-- The state after `reload_module envC5 _ stC5 "a"`: one sync from
unloading the dependent `b`, the reloads of `a` and `b`, and the final
sync. -/
def stC5res : St :=
  ⟨[("a", fPlain), ("b", fDepA)], [], [("b", ["a"])], ["matchday_module"],
    [], [],
    [Event.syncEvt, Event.setupEvt "a", Event.setupEvt "b", Event.syncEvt]⟩

/-- The state after the dependency loop fails to find `a` in
`envC4bad`. -/
def stC4bad : St :=
  ⟨[], ["Modul a nicht gefunden.",
    "Modul m benoetigt a, welches nicht geladen werden konnte."],
    [("m", ["a"])], ["matchday_module"], [], [], []⟩

end Bot

namespace StaffList

/-- Fixture for the pagination witness: one list with 26 roles, all
memberless, so the generator emits 26 fields across two pages. -/
def rolesW : List Role :=
  (List.range 26).map (fun i => ⟨(i : Int), "r" ++ toString i, []⟩)

def tableW : List Row := (List.range 26).map (fun i => ⟨1, (i : Int), none⟩)

def guildW : Guild := ⟨rolesW⟩

def ldW : ListData := ⟨1, "staff", "Team", "#ff0000", false, false⟩

end StaffList

namespace Matchday

/-- Binade exponent of a positive rational: the unique `e` with
`2 ^ e ≤ q < 2 ^ (e + 1)`, computed from `Nat.log2` of numerator and
denominator with a one-step correction. -/
def expFloor (q : ℚ) : ℤ :=
  if q < 2 ^ ((Nat.log2 q.num.natAbs : ℤ) - (Nat.log2 q.den : ℤ))
  then (Nat.log2 q.num.natAbs : ℤ) - (Nat.log2 q.den : ℤ) - 1
  else (Nat.log2 q.num.natAbs : ℤ) - (Nat.log2 q.den : ℤ)

/-- Round a rational to the nearest integer, ties to even (the IEEE-754
default rounding used by every Python float operation). -/
def roundHalfEven (s : ℚ) : ℤ :=
  if s - Rat.floor s < 1 / 2 then Rat.floor s
  else if 1 / 2 < s - Rat.floor s then Rat.floor s + 1
  else if Rat.floor s % 2 = 0 then Rat.floor s else Rat.floor s + 1

/-- Round a nonnegative rational to the nearest IEEE-754 binary64 value
(as the exact rational it denotes): keep 53 significant bits of the
binade `2 ^ expFloor q`, rounding half to even.  Overflow and subnormal
ranges do not occur in the inputs considered and are not modelled. -/
def roundFloat (q : ℚ) : ℚ :=
  if q ≤ 0 then 0
  else (roundHalfEven (q * 2 ^ ((52 : ℤ) - expFloor q)) : ℚ) * 2 ^ (expFloor q - 52)

/-- `matchday_module.py` 693-697: `_resize_image`.  Python computes
`ratio = min(max_width/img.width, max_height/img.height)` in binary64
float arithmetic (the ints are converted to float — `roundFloat` of the
cast — and `/` is correctly rounded division), multiplies the float
widths by the ratio with correctly rounded `*`, and truncates the
nonnegative products with `int(...)` (`Rat.floor`, then `toNat`). -/
def resize_image (img : PILImage) (max_width max_height : Nat) : PILImage :=
  let wf := roundFloat (img.width : ℚ)
  let hf := roundFloat (img.height : ℚ)
  let ratio := min (roundFloat (roundFloat (max_width : ℚ) / wf))
      (roundFloat (roundFloat (max_height : ℚ) / hf))
  { width := (Rat.floor (roundFloat (wf * ratio))).toNat,
    height := (Rat.floor (roundFloat (hf * ratio))).toNat }

end Matchday

/-! ## Lemmas about the dictionary model -/

namespace Bot

theorem getVal_append_some {β : Type} {l1 : List (String × β)}
    (l2 : List (String × β)) {k : String} {v : β}
    (h : getVal l1 k = some v) : getVal (l1 ++ l2) k = some v := by
  induction l1 with
  | nil => simp [getVal] at h
  | cons p r ih =>
    by_cases hak : p.1 = k
    · simp [getVal, hak] at h ⊢
      exact h
    · simp [getVal, hak] at h ⊢
      exact ih h

theorem getVal_append_none {β : Type} {l1 : List (String × β)}
    (l2 : List (String × β)) {k : String}
    (h : getVal l1 k = none) : getVal (l1 ++ l2) k = getVal l2 k := by
  induction l1 with
  | nil => simp [getVal]
  | cons p r ih =>
    by_cases hak : p.1 = k
    · simp [getVal, hak] at h
    · simp [getVal, hak] at h ⊢
      exact ih h

theorem getVal_setKey_ne {β : Type} (l : List (String × β)) (k : String)
    (v : β) {k' : String} (h : k' ≠ k) :
    getVal (setKey l k v) k' = getVal l k' := by
  induction l with
  | nil => simp [setKey]
  | cons p r ih =>
    obtain ⟨a, b⟩ := p
    by_cases hak : a = k
    · simp [setKey, hak, getVal, Ne.symm h, ih]
    · simp [setKey, hak, getVal, ih]

theorem getVal_setKey_self {β : Type} (l : List (String × β)) (k : String)
    (v : β) (h : (getVal l k).isSome = true) :
    getVal (setKey l k v) k = some v := by
  induction l with
  | nil => simp [getVal] at h
  | cons p r ih =>
    obtain ⟨a, b⟩ := p
    by_cases hak : a = k
    · simp [setKey, hak, getVal]
    · simp only [getVal, if_neg hak] at h
      simp [setKey, hak, getVal, ih h]

theorem getVal_dictSet {β : Type} (l : List (String × β)) (k : String)
    (v : β) (k' : String) :
    getVal (dictSet l k v) k' = if k' = k then some v else getVal l k' := by
  unfold dictSet
  by_cases hs : (getVal l k).isSome
  · simp only [hs, if_true]
    by_cases hk : k' = k
    · subst hk
      simp [getVal_setKey_self l k' v hs]
    · simp [hk, getVal_setKey_ne l k v hk]
  · simp only [hs, Bool.false_eq_true, if_false]
    have hnone : getVal l k = none := by
      cases hg : getVal l k with
      | none => rfl
      | some w => rw [hg] at hs; simp at hs
    by_cases hk : k' = k
    · subst hk
      rw [getVal_append_none _ hnone]
      simp [getVal]
    · by_cases hsk : (getVal l k').isSome
      · obtain ⟨w, hw⟩ := Option.isSome_iff_exists.mp hsk
        rw [getVal_append_some _ hw]
        simp [hk, hw]
      · have hnone' : getVal l k' = none := by
          cases hg : getVal l k' with
          | none => rfl
          | some w => rw [hg] at hsk; simp at hsk
        rw [getVal_append_none _ hnone']
        simp [getVal, hk, hnone', Ne.symm hk]

theorem getVal_dictErase {β : Type} (l : List (String × β)) (k k' : String) :
    getVal (dictErase l k) k' = if k' = k then none else getVal l k' := by
  induction l with
  | nil => simp [getVal, dictErase]
  | cons p r ih =>
    obtain ⟨a, b⟩ := p
    by_cases hak : a = k
    · rw [show dictErase ((a, b) :: r) k = dictErase r k by
        simp [dictErase, hak]]
      rw [ih]
      by_cases hk : k' = k
      · simp [hk]
      · have hak' : ¬ a = k' := by
          rw [hak]; exact fun hc => hk hc.symm
        simp [getVal, hk, hak']
    · rw [show dictErase ((a, b) :: r) k = (a, b) :: dictErase r k by
        simp [dictErase, hak]]
      by_cases hak' : a = k'
      · have hk : ¬ k' = k := by
          rw [← hak']; exact fun hc => hak hc
        simp [getVal, hak', hk]
      · simp only [getVal, if_neg hak']
        exact ih

theorem getVal_mem {β : Type} {l : List (String × β)} {k : String} {v : β}
    (h : getVal l k = some v) : (k, v) ∈ l := by
  induction l with
  | nil => simp [getVal] at h
  | cons p r ih =>
    obtain ⟨a, b⟩ := p
    by_cases hak : a = k
    · simp only [getVal, if_pos hak] at h
      subst hak
      simp only [Option.some_inj] at h
      subst h
      exact List.mem_cons_self _ _
    · simp only [getVal, if_neg hak] at h
      exact List.mem_cons_of_mem _ (ih h)

theorem teardownStep_modules (s : St) (m : String) (v : ModuleFile) :
    (teardownStep s m v).modules = s.modules := by
  unfold teardownStep
  split <;> rfl

theorem teardownStep_cogs (s : St) (m : String) (v : ModuleFile) :
    (teardownStep s m v).loaded_cogs = s.loaded_cogs := by
  unfold teardownStep
  split <;> rfl

theorem cogErase_modules (env : Env) (s : St) (m : String) :
    (cogErase env s m).modules = s.modules := by
  unfold cogErase
  cases extract_cog_name env m with
  | none => rfl
  | some c =>
    dsimp only
    split <;> rfl

theorem cogErase_trace (env : Env) (s : St) (m : String) :
    (cogErase env s m).trace = s.trace := by
  unfold cogErase
  cases extract_cog_name env m with
  | none => rfl
  | some c =>
    dsimp only
    split <;> rfl

theorem removeModuleCommands_modules (s : St) (m : String) :
    (removeModuleCommands s m).modules = s.modules := rfl

theorem removeModuleCommands_trace (s : St) (m : String) :
    (removeModuleCommands s m).trace = s.trace := rfl

end Bot

/-! ## C10: image resizing -/

namespace Matchday

/-- `Rat.floor` agrees with the Mathlib floor on `ℚ`. -/
theorem ratFloor_eq_floor (q : ℚ) : Rat.floor q = ⌊q⌋ := by
  rw [Rat.floor_def', Rat.floor_def]

/-- Rounding to the nearest integer moves a value by at most `1/2`
upward. -/
theorem roundHalfEven_le (s : ℚ) : (roundHalfEven s : ℚ) ≤ s + 1 / 2 := by
  have h1 : ((Rat.floor s : ℤ) : ℚ) ≤ s := by
    rw [ratFloor_eq_floor]; exact Int.floor_le s
  have h2 : s < ((Rat.floor s : ℤ) : ℚ) + 1 := by
    rw [ratFloor_eq_floor]; exact Int.lt_floor_add_one s
  unfold roundHalfEven
  split_ifs with hc1 hc2 hc3 <;> push_cast <;> linarith

/-- Rounding a nonnegative value to the nearest integer stays
nonnegative. -/
theorem roundHalfEven_nonneg (s : ℚ) (hs : 0 ≤ s) : 0 ≤ roundHalfEven s := by
  have h1 : 0 ≤ Rat.floor s := by
    rw [ratFloor_eq_floor]; exact Int.floor_nonneg.mpr hs
  unfold roundHalfEven
  split_ifs <;> omega

/-- A float value is nonnegative. -/
theorem roundFloat_nonneg (q : ℚ) : 0 ≤ roundFloat q := by
  unfold roundFloat
  split_ifs with h
  · exact le_refl 0
  · push_neg at h
    apply mul_nonneg
    · have : (0:ℚ) ≤ q * 2 ^ ((52 : ℤ) - expFloor q) :=
        mul_nonneg h.le (zpow_pos (by norm_num : (0:ℚ) < 2) _).le
      exact_mod_cast roundHalfEven_nonneg _ this
    · exact (zpow_pos (by norm_num : (0:ℚ) < 2) _).le

/-- `expFloor` really is the binade exponent: `2 ^ e ≤ q < 2 ^ (e+1)`. -/
theorem expFloor_spec (q : ℚ) (hq : 0 < q) :
    (2 : ℚ) ^ expFloor q ≤ q ∧ q < 2 ^ (expFloor q + 1) := by
  have hnum : 0 < q.num := Rat.num_pos.mpr hq
  have hden : 0 < q.den := q.den_pos
  unfold expFloor
  set a : ℕ := q.num.natAbs with ha
  set b : ℕ := q.den with hb
  have ha0 : a ≠ 0 := by
    rw [ha]; simpa using (by omega : q.num ≠ 0)
  have hb0 : b ≠ 0 := by omega
  have haq : ((a : ℕ) : ℚ) = (q.num : ℚ) := by
    rw [ha, Int.cast_natAbs]
    exact_mod_cast abs_of_nonneg hnum.le
  have hq_eq : q = (a : ℚ) / (b : ℚ) := by
    rw [haq, hb]; exact (Rat.num_div_den q).symm
  set La := Nat.log2 a with hLa
  set Lb := Nat.log2 b with hLb
  have ha_pos : (0:ℚ) < (a:ℚ) := by
    have : 0 < a := Nat.pos_of_ne_zero ha0
    exact_mod_cast this
  have hb_pos : (0:ℚ) < (b:ℚ) := by
    have : 0 < b := Nat.pos_of_ne_zero hb0
    exact_mod_cast this
  have A1 : (2:ℚ) ^ La ≤ (a : ℚ) := by exact_mod_cast Nat.log2_self_le ha0
  have A2 : (a : ℚ) < 2 ^ (La + 1) := by exact_mod_cast Nat.lt_log2_self
  have B1 : (2:ℚ) ^ Lb ≤ (b : ℚ) := by exact_mod_cast Nat.log2_self_le hb0
  have B2 : (b : ℚ) < 2 ^ (Lb + 1) := by exact_mod_cast Nat.lt_log2_self
  have h2ne : (2:ℚ) ≠ 0 := by norm_num
  have hlowpow : (2:ℚ) ^ ((La:ℤ) - (Lb:ℤ) - 1) = (2:ℚ) ^ (La:ℕ) / (2:ℚ) ^ (Lb+1:ℕ) := by
    rw [← zpow_natCast (2:ℚ) La, ← zpow_natCast (2:ℚ) (Lb+1), ← zpow_sub₀ h2ne]
    congr 1
    push_cast
    ring
  have huppow : (2:ℚ) ^ ((La:ℤ) - (Lb:ℤ) + 1) = (2:ℚ) ^ (La+1:ℕ) / (2:ℚ) ^ (Lb:ℕ) := by
    rw [← zpow_natCast (2:ℚ) (La+1), ← zpow_natCast (2:ℚ) Lb, ← zpow_sub₀ h2ne]
    congr 1
    push_cast
    ring
  have hlow : (2:ℚ) ^ ((La:ℤ) - (Lb:ℤ) - 1) < q := by
    rw [hlowpow, hq_eq]
    calc (2:ℚ) ^ (La:ℕ) / (2:ℚ) ^ (Lb+1:ℕ)
        ≤ (a:ℚ) / (2:ℚ) ^ (Lb+1:ℕ) := (div_le_div_iff_of_pos_right (by positivity)).mpr A1
      _ < (a:ℚ) / (b:ℚ) := div_lt_div_of_pos_left ha_pos hb_pos B2
  have hup : q < (2:ℚ) ^ ((La:ℤ) - (Lb:ℤ) + 1) := by
    rw [huppow, hq_eq]
    calc (a:ℚ) / (b:ℚ)
        ≤ (a:ℚ) / (2:ℚ) ^ (Lb:ℕ) :=
          div_le_div_of_nonneg_left ha_pos.le (by positivity) B1
      _ < (2:ℚ) ^ (La+1:ℕ) / (2:ℚ) ^ (Lb:ℕ) := (div_lt_div_iff_of_pos_right (by positivity)).mpr A2
  split_ifs with hc
  · constructor
    · exact hlow.le
    · have he : (La:ℤ) - (Lb:ℤ) - 1 + 1 = (La:ℤ) - (Lb:ℤ) := by ring
      rw [he]
      exact hc
  · exact ⟨not_lt.mp hc, hup⟩

/-- The binade exponent is determined by `2 ^ e ≤ q < 2 ^ (e+1)`. -/
theorem expFloor_eq (q : ℚ) (e : ℤ) (hq : 0 < q)
    (h1 : (2:ℚ) ^ e ≤ q) (h2 : q < 2 ^ (e + 1)) : expFloor q = e := by
  obtain ⟨g1, g2⟩ := expFloor_spec q hq
  by_contra hne
  rcases lt_or_gt_of_ne hne with hlt | hgt
  · have : (2:ℚ) ^ (expFloor q + 1) ≤ 2 ^ e :=
      zpow_le_zpow_right₀ (by norm_num) (by omega)
    linarith
  · have : (2:ℚ) ^ (e + 1) ≤ 2 ^ expFloor q :=
      zpow_le_zpow_right₀ (by norm_num) (by omega)
    linarith

/-- Rounding a positive rational to binary64 overshoots by at most half an
ulp: `roundFloat q ≤ q + q / 2 ^ 53`. -/
theorem roundFloat_le (q : ℚ) (hq : 0 < q) : roundFloat q ≤ q + q / 2 ^ 53 := by
  unfold roundFloat
  rw [if_neg (not_le.mpr hq)]
  have h2ne : (2:ℚ) ≠ 0 := by norm_num
  have hspec := expFloor_spec q hq
  set e := expFloor q with he
  have hpe : (0:ℚ) < 2 ^ (e - 52) := zpow_pos (by norm_num) _
  have step1 : ((roundHalfEven (q * 2 ^ ((52:ℤ) - e)) : ℤ) : ℚ) * 2 ^ (e - 52)
      ≤ (q * 2 ^ ((52:ℤ) - e) + 1/2) * 2 ^ (e - 52) :=
    mul_le_mul_of_nonneg_right (roundHalfEven_le _) hpe.le
  have hcancel : q * 2 ^ ((52:ℤ) - e) * 2 ^ (e - 52) = q := by
    rw [mul_assoc, ← zpow_add₀ h2ne]
    norm_num
  have h12 : (1/2 : ℚ) * 2 ^ (e - 52) = 2 ^ (e - 53) := by
    rw [show e - 53 = -1 + (e - 52) by ring, zpow_add₀ h2ne]
    norm_num
  have hbound : (2:ℚ) ^ (e - 53) ≤ q / 2 ^ 53 := by
    have hz : (2:ℚ) ^ (e - 53) = 2 ^ e / 2 ^ (53:ℤ) := by rw [zpow_sub₀ h2ne]
    have h53 : ((2:ℚ) ^ (53:ℤ)) = 2 ^ (53:ℕ) := by norm_num
    rw [hz, h53]
    exact (div_le_div_iff_of_pos_right (by positivity)).mpr hspec.1
  have expand : (q * 2 ^ ((52:ℤ) - e) + 1/2) * 2 ^ (e - 52)
      = q * 2 ^ ((52:ℤ) - e) * 2 ^ (e - 52) + (1/2) * 2 ^ (e - 52) := by ring
  rw [expand, hcancel, h12] at step1
  linarith

/-- Integers round to themselves. -/
theorem roundHalfEven_intCast (z : ℤ) : roundHalfEven (z : ℚ) = z := by
  have h : Rat.floor ((z : ℤ) : ℚ) = z := by
    rw [ratFloor_eq_floor]; exact Int.floor_intCast z
  unfold roundHalfEven
  rw [h]
  norm_num

/-- Int-to-float conversion is exact below `2 ^ 53` (Python converts the
`int` operands of `/` and `*` to float first). -/
theorem roundFloat_natCast (n : ℕ) (h0 : 0 < n) (hlt : n < 2 ^ 53) :
    roundFloat (n : ℚ) = n := by
  have hq : (0:ℚ) < n := by exact_mod_cast h0
  unfold roundFloat
  rw [if_neg (not_le.mpr hq)]
  set e := expFloor (n : ℚ) with he
  have hspec := expFloor_spec (n : ℚ) hq
  rw [← he] at hspec
  have he52 : e ≤ 52 := by
    by_contra hcon
    push_neg at hcon
    have hcmp : (2:ℚ) ^ (53:ℤ) ≤ 2 ^ e := zpow_le_zpow_right₀ (by norm_num) (by omega)
    have hn53 : ((n:ℚ)) < 2 ^ (53:ℤ) := by
      have hcast : ((2 ^ 53 : ℕ) : ℚ) = (2:ℚ) ^ (53:ℤ) := by norm_num
      rw [← hcast]
      exact_mod_cast hlt
    linarith [hspec.1]
  obtain ⟨k, hk⟩ : ∃ k : ℕ, (52:ℤ) - e = k := ⟨((52:ℤ) - e).toNat, by omega⟩
  have hs : (n:ℚ) * 2 ^ ((52:ℤ) - e) = (((n * 2 ^ k : ℕ) : ℤ) : ℚ) := by
    rw [hk]
    push_cast
    rw [zpow_natCast]
  rw [hs, roundHalfEven_intCast]
  push_cast
  have hone : ((2:ℚ) ^ k) * 2 ^ (e - 52) = 1 := by
    rw [← zpow_natCast (2:ℚ) k, ← zpow_add₀ (by norm_num : (2:ℚ) ≠ 0)]
    rw [show (k:ℤ) + (e - 52) = 0 by omega]
    exact zpow_zero 2
  rw [mul_assoc, hone, mul_one]

/-- One dimension of the bound: if `r` is at most the rounded quotient
`mw/w` then truncating `roundFloat (w * r)` stays within `mw`.  The two
half-ulp roundings overshoot `mw` by less than `1` because `mw < 2 ^ 50`
keeps the accumulated error below one. -/
theorem dim_bound (w mw : ℕ) (r : ℚ) (hw : 0 < w) (hmw : 0 < mw)
    (hmwB : mw < 2 ^ 50)
    (hr : r ≤ roundFloat ((mw : ℚ) / (w : ℚ))) :
    (Rat.floor (roundFloat ((w : ℚ) * r))).toNat ≤ mw := by
  have hwQ : (0:ℚ) < w := by exact_mod_cast hw
  have hmwQ : (0:ℚ) < mw := by exact_mod_cast hmw
  by_cases hp : (w:ℚ) * r ≤ 0
  · have hz : roundFloat ((w:ℚ) * r) = 0 := by
      unfold roundFloat; rw [if_pos hp]
    rw [hz]
    have : Rat.floor (0:ℚ) = 0 := by
      rw [ratFloor_eq_floor]; exact Int.floor_zero
    rw [this]
    exact Nat.zero_le mw
  · push_neg at hp
    have hd0 : (0:ℚ) < (mw:ℚ) / (w:ℚ) := div_pos hmwQ hwQ
    have hdle := roundFloat_le _ hd0
    have hple := roundFloat_le _ hp
    have hwr : (w:ℚ) * r ≤ (mw:ℚ) + (mw:ℚ) / 2 ^ 53 := by
      have h1 : (w:ℚ) * r ≤ (w:ℚ) * roundFloat ((mw:ℚ)/(w:ℚ)) :=
        mul_le_mul_of_nonneg_left hr hwQ.le
      have h2 : (w:ℚ) * ((mw:ℚ)/(w:ℚ) + ((mw:ℚ)/(w:ℚ))/2^53) = (mw:ℚ) + (mw:ℚ)/2^53 := by
        field_simp
        ring
      have h3 : (w:ℚ) * roundFloat ((mw:ℚ)/(w:ℚ))
          ≤ (w:ℚ) * ((mw:ℚ)/(w:ℚ) + ((mw:ℚ)/(w:ℚ))/2^53) :=
        mul_le_mul_of_nonneg_left hdle hwQ.le
      rw [h2] at h3
      linarith
    have hmwB' : (mw:ℚ) < 2 ^ 50 := by exact_mod_cast hmwB
    have hlt1 : roundFloat ((w:ℚ) * r) < (mw:ℚ) + 1 := by
      have hpp : (w:ℚ) * r / 2 ^ 53 ≤ ((mw:ℚ) + (mw:ℚ)/2^53) / 2 ^ 53 :=
        (div_le_div_iff_of_pos_right (by positivity)).mpr hwr
      have hexp : ((mw:ℚ) + (mw:ℚ)/2^53) / 2 ^ 53 = (mw:ℚ)/2^53 + (mw:ℚ)/2^106 := by
        field_simp
        ring
      rw [hexp] at hpp
      linarith
    have hfl : Rat.floor (roundFloat ((w:ℚ) * r)) ≤ (mw:ℤ) := by
      rw [ratFloor_eq_floor]
      have hlt : ⌊roundFloat ((w:ℚ) * r)⌋ < (mw:ℤ) + 1 := by
        apply Int.floor_lt.mpr
        push_cast
        linarith
      omega
    exact Int.toNat_le.mpr hfl

/-- The computed value of a round: if an integer `z` is at most `s` and
less than half a unit below it, the round returns `z`. -/
theorem rhe_of_floor_lt (s : ℚ) (z : ℤ) (h1 : (z:ℚ) ≤ s) (h2 : s - z < 1/2) :
    roundHalfEven s = z := by
  have hfl : Rat.floor s = z := by
    rw [ratFloor_eq_floor, Int.floor_eq_iff]
    constructor
    · exact h1
    · linarith
  unfold roundHalfEven
  rw [hfl, if_pos h2]

/-- The binary64 value of `1/49` (the double `0x3F94E5E0A72F0539`): the
exact quotient rounds up to `5882252574524729 / 2 ^ 58`. -/
theorem roundFloat_one_div_49 :
    roundFloat ((1:ℚ) / 49) = 5882252574524729 / 2 ^ 58 := by
  have hq : (0:ℚ) < 1/49 := by norm_num
  have he : expFloor ((1:ℚ)/49) = -6 :=
    expFloor_eq _ _ hq (by norm_num) (by norm_num)
  unfold roundFloat
  rw [if_neg (not_le.mpr hq), he]
  rw [show ((52:ℤ) - -6) = 58 by norm_num, show ((-6:ℤ) - 52) = -58 by norm_num]
  rw [show ((1:ℚ)/49 * 2 ^ (58:ℤ)) = 288230376151711744 / 49 by norm_num]
  rw [rhe_of_floor_lt (288230376151711744 / 49) 5882252574524729 (by norm_num) (by norm_num)]
  norm_num

/-- The binary64 product `49 * (1/49 as double)` rounds down to
`9007199254740991 / 2 ^ 53 = 0.9999999999999999`, strictly below `1`. -/
theorem roundFloat_prod49 :
    roundFloat ((49:ℚ) * (5882252574524729 / 2 ^ 58)) = 9007199254740991 / 2 ^ 53 := by
  rw [show ((49:ℚ) * (5882252574524729 / 2 ^ 58)) = 288230376151711721 / 2 ^ 58 by norm_num]
  have hq : (0:ℚ) < 288230376151711721 / 2 ^ 58 := by norm_num
  have he : expFloor ((288230376151711721:ℚ) / 2 ^ 58) = -1 :=
    expFloor_eq _ _ hq (by norm_num) (by norm_num)
  unfold roundFloat
  rw [if_neg (not_le.mpr hq), he]
  rw [show ((52:ℤ) - -1) = 53 by norm_num, show ((-1:ℤ) - 52) = -53 by norm_num]
  rw [show ((288230376151711721:ℚ) / 2 ^ 58 * 2 ^ (53:ℤ)) = 288230376151711721 / 32 by norm_num]
  rw [rhe_of_floor_lt (288230376151711721 / 32) 9007199254740991 (by norm_num) (by norm_num)]
  norm_num

/-- C10, counterexample to the claimed size equation: on a 49×49 image with
bounds 1×1 the float computation `int(49 * (1/49))` yields `(0, 0)` —
`49 * (1/49 as double)` is `0.9999999999999999` — while the claimed exact
formula `⌊w * min (mw/w) (mh/h)⌋` gives `1`. -/
theorem resize_image_cex :
    resize_image ⟨49, 49⟩ 1 1 = ⟨0, 0⟩ ∧
    ⌊(49:ℚ) * min ((1:ℚ) / 49) ((1:ℚ) / 49)⌋₊ = 1 := by
  constructor
  · have h49 : roundFloat (49:ℚ) = 49 := by
      have h := roundFloat_natCast 49 (by norm_num) (by norm_num)
      push_cast at h
      exact h
    have h1 : roundFloat (1:ℚ) = 1 := by
      have h := roundFloat_natCast 1 (by norm_num) (by norm_num)
      push_cast at h
      exact h
    have hfl0 : Rat.floor ((9007199254740991:ℚ) / 2 ^ 53) = 0 := by
      rw [ratFloor_eq_floor, Int.floor_eq_iff]
      norm_num
    unfold resize_image
    dsimp only
    push_cast
    rw [h49, h1, roundFloat_one_div_49, min_self, roundFloat_prod49, hfl0]
    rfl
  · rw [min_self]
    norm_num

/-- C10, amended: in binary64 float arithmetic `_resize_image` still
returns a size within the bounds — for positive dimensions below `2 ^ 53`
and positive bounds below `2 ^ 50` the rounding errors (half an ulp per
operation) keep each product strictly below `max + 1`, so the `int`
truncation is at most the bound.  (The claimed exact-size equation is
false: see the counterexample.) -/
theorem resize_image_bounds (img : PILImage) (mw mh : Nat)
    (hw : 0 < img.width) (hh : 0 < img.height)
    (hwB : img.width < 2 ^ 53) (hhB : img.height < 2 ^ 53)
    (hmw : 0 < mw) (hmh : 0 < mh) (hmwB : mw < 2 ^ 50) (hmhB : mh < 2 ^ 50) :
    (resize_image img mw mh).width ≤ mw ∧ (resize_image img mw mh).height ≤ mh := by
  have hwf : roundFloat (img.width : ℚ) = img.width := roundFloat_natCast _ hw hwB
  have hhf : roundFloat (img.height : ℚ) = img.height := roundFloat_natCast _ hh hhB
  have hmwf : roundFloat (mw : ℚ) = mw := roundFloat_natCast _ hmw (by omega)
  have hmhf : roundFloat (mh : ℚ) = mh := roundFloat_natCast _ hmh (by omega)
  unfold resize_image
  dsimp only
  rw [hwf, hhf, hmwf, hmhf]
  constructor
  · exact dim_bound img.width mw _ hw hmw hmwB (min_le_left _ _)
  · exact dim_bound img.height mh _ hh hmh hmhB (min_le_right _ _)

/-- Witness for `resize_image_bounds` at a 640×480 image bounded by
100×100. -/
theorem resize_image_bounds_witness :
    (resize_image ⟨640, 480⟩ 100 100).width ≤ 100 ∧
    (resize_image ⟨640, 480⟩ 100 100).height ≤ 100 :=
  resize_image_bounds ⟨640, 480⟩ 100 100 (by decide) (by decide) (by decide)
    (by decide) (by decide) (by decide) (by decide) (by decide)

end Matchday

/-! ## C8: add_role_to_list -/

namespace StaffList

/-- C8: `add_role_to_list` inserts and returns `True` exactly when no row
with the `(list_id, role_id)` pair exists; otherwise it returns `False`,
updating the matching rows' `custom_name` only when a name is given and
leaving every other row unchanged. -/
theorem add_role_to_list_spec (t : List Row) (lid rid : Int)
    (cn : Option String) :
    ((add_role_to_list t lid rid cn).1 = true ↔
      ∀ r ∈ t, ¬(r.list_id = lid ∧ r.role_id = rid)) ∧
    ((∀ r ∈ t, ¬(r.list_id = lid ∧ r.role_id = rid)) →
      add_role_to_list t lid rid cn = (true, t ++ [⟨lid, rid, cn⟩])) ∧
    ((∃ r ∈ t, r.list_id = lid ∧ r.role_id = rid) →
      (add_role_to_list t lid rid cn).1 = false ∧
      (cn = none → (add_role_to_list t lid rid cn).2 = t) ∧
      (∀ nm, cn = some nm → (add_role_to_list t lid rid cn).2 =
        t.map (fun r =>
          if r.list_id == lid && r.role_id == rid then
            { r with custom_name := some nm }
          else r))) := by
  have hany : (t.any (fun r => r.list_id == lid && r.role_id == rid)) = true ↔
      ∃ r ∈ t, r.list_id = lid ∧ r.role_id = rid := by
    simp [List.any_eq_true]
  by_cases h : t.any (fun r => r.list_id == lid && r.role_id == rid) = true
  · obtain ⟨r0, hr0, hr0p⟩ := hany.mp h
    refine ⟨?_, ?_, ?_⟩
    · constructor
      · intro hres
        exfalso
        cases hcn : cn with
        | none => simp [add_role_to_list, h, hcn] at hres
        | some nm => simp [add_role_to_list, h, hcn] at hres
      · intro hall
        exact absurd hr0p (hall r0 hr0)
    · intro hall
      exact absurd hr0p (hall r0 hr0)
    · intro _
      refine ⟨?_, ?_, ?_⟩
      · cases hcn : cn with
        | none => simp [add_role_to_list, h, hcn]
        | some nm => simp [add_role_to_list, h, hcn]
      · intro hcn
        simp [add_role_to_list, h, hcn]
      · intro nm hcn
        simp [add_role_to_list, h, hcn]
  · have hnone : ∀ r ∈ t, ¬(r.list_id = lid ∧ r.role_id = rid) := by
      intro r hr hc
      exact h (hany.mpr ⟨r, hr, hc⟩)
    refine ⟨?_, ?_, ?_⟩
    · constructor
      · intro _
        exact hnone
      · intro _
        simp [add_role_to_list, h]
    · intro _
      simp [add_role_to_list, h]
    · intro ⟨r0, hr0, hr0p⟩
      exact absurd hr0p (hnone r0 hr0)

/-- Witness for `add_role_to_list_spec`: a fresh pair is inserted, an
existing pair refuses insertion and updates the name. -/
theorem add_role_to_list_spec_witness :
    add_role_to_list [⟨1, 2, none⟩] 1 3 (some "x") =
      (true, [⟨1, 2, none⟩, ⟨1, 3, some "x"⟩]) ∧
    (add_role_to_list [⟨1, 2, none⟩] 1 2 (some "x")).1 = false ∧
    (add_role_to_list [⟨1, 2, none⟩] 1 2 (some "x")).2 =
      [⟨1, 2, some "x"⟩] := by
  refine ⟨?_, ?_, ?_⟩
  · exact (add_role_to_list_spec [⟨1, 2, none⟩] 1 3 (some "x")).2.1
      (by decide)
  · exact ((add_role_to_list_spec [⟨1, 2, none⟩] 1 2 (some "x")).2.2
      ⟨⟨1, 2, none⟩, by decide, by decide⟩).1
  · rw [((add_role_to_list_spec [⟨1, 2, none⟩] 1 2 (some "x")).2.2
      ⟨⟨1, 2, none⟩, by decide, by decide⟩).2.2 "x" rfl]
    decide

end StaffList

/-! ## C6: retry/backoff in main() -/

namespace Bot

/-- C6 counterexample: three consecutive startup failures make `main()`
sleep 5, 10 and 20 seconds before retrying — a retry loop with a growing
delay, contradicting "no retry or backoff policy". -/
theorem mainLoop_backoff_cex :
    mainLoop [.otherError, .otherError, .otherError] 0 5 = [5, 10, 20] := by
  decide

/-- C6 amended: module-level failures are only logged and signalled, but
`main()` itself retries failed startups: a login failure, a missing token
and a clean shutdown stop the loop without any sleep; generic startup
errors are retried with a doubling delay, at most 5 attempts in total
(4 sleeps); and once `retry_count` reaches `max_retries = 5` the loop
exits. -/
theorem mainLoop_amended :
    (∀ rest rc d, rc < 5 →
      mainLoop (.loginFailure :: rest) rc d = [] ∧
      mainLoop (.cleanShutdown :: rest) rc d = [] ∧
      mainLoop (.noToken :: rest) rc d = []) ∧
    (∀ rest, mainLoop
      (.otherError :: .otherError :: .otherError :: .otherError ::
        .otherError :: rest) 0 5 = [5, 10, 20, 40]) ∧
    (∀ outs rc d, 5 ≤ rc → mainLoop outs rc d = []) := by
  refine ⟨?_, ?_, ?_⟩
  · intro rest rc d hrc
    have h5 : ¬ 5 ≤ rc := by omega
    refine ⟨?_, ?_, ?_⟩ <;> simp [mainLoop, h5]
  · intro rest
    simp [mainLoop]
  · intro outs rc d hrc
    cases outs <;> simp [mainLoop, hrc]

/-- Witness for `mainLoop_amended` at concrete loop inputs. -/
theorem mainLoop_amended_witness :
    mainLoop [.loginFailure] 0 5 = [] ∧
    mainLoop [.otherError, .otherError, .otherError, .otherError,
      .otherError] 0 5 = [5, 10, 20, 40] ∧
    mainLoop [.unexpectedDisconnect] 5 7 = [] :=
  ⟨(mainLoop_amended.1 [] 0 5 (by decide)).1,
    mainLoop_amended.2.1 [],
    mainLoop_amended.2.2 [.unexpectedDisconnect] 5 7 (by decide)⟩

/-! ## C2: loading is idempotent -/

/-- C2: loading an already-loaded module returns `True` and changes
nothing — no setup run, no registration, no state change. -/
theorem load_module_idempotent (env : Env) (fuel : Nat) (st : St)
    (m : String) (h : (getVal st.modules m).isSome = true) :
    load_module env fuel st m = some (true, st) ∧
    loadModuleRec env (fuel + 1) st m = some (true, st) := by
  constructor
  · simp [load_module, h]
  · rw [loadModuleRec]
    simp [h]

/-- Witness for `load_module_idempotent`: module `b` is loaded in
`stPlainB`. -/
theorem load_module_idempotent_witness :
    load_module envC5 0 stPlainB "b" = some (true, stPlainB) ∧
    loadModuleRec envC5 (0 + 1) stPlainB "b" = some (true, stPlainB) :=
  load_module_idempotent envC5 0 stPlainB "b" (by decide)

/-! ## C1: unload_module guards -/

/-- C1 counterexample: module `a` is loaded, not required, and no *other*
loaded module lists it as a dependency — only `a`'s own recorded list
mentions `a` — yet `unload_module` returns `False` instead of unloading
it. -/
theorem unload_module_cex :
    (getVal stC1.modules "a").isSome = true ∧
    "a" ∉ stC1.required_modules ∧
    (∀ p ∈ stC1.module_dependencies,
      (getVal stC1.modules p.1).isSome = true → "a" ∈ p.2 → p.1 = "a") ∧
    (unload_module envC1 stC1 "a").1 = false := by
  refine ⟨by decide, by decide, ?_, by decide⟩
  intro p hp _ _
  cases hp with
  | head => rfl
  | tail _ hmem => cases hmem

/-- C1 amended: `unload_module m` returns `False` and leaves the state
unchanged when `m` is required or any loaded module — including `m`
itself — lists `m` in its recorded dependencies, and also when `m` is not
loaded; otherwise it removes `m` from `modules` and returns `True`. -/
theorem unload_module_amended (env : Env) (st : St) (m : String) :
    ((getVal st.modules m).isSome = true →
      (m ∈ st.required_modules ∨ dependent_modules st m ≠ []) →
      unload_module env st m = (false, st)) ∧
    (getVal st.modules m = none → unload_module env st m = (false, st)) ∧
    ((getVal st.modules m).isSome = true → m ∉ st.required_modules →
      dependent_modules st m = [] →
      (unload_module env st m).1 = true ∧
      (unload_module env st m).2.modules = dictErase st.modules m) := by
  refine ⟨?_, ?_, ?_⟩
  · intro hs hguard
    obtain ⟨modv, hv⟩ := Option.isSome_iff_exists.mp hs
    by_cases hreq : m ∈ st.required_modules
    · by_cases hdep : dependent_modules st m ≠ []
      · simp [unload_module, hv, hreq, hdep]
      · simp [unload_module, hv, hreq, hdep]
    · cases hguard with
      | inl h => exact absurd h hreq
      | inr hdep => simp [unload_module, hv, hreq, hdep]
  · intro hnone
    simp [unload_module, hnone]
  · intro hs hreq hdep
    obtain ⟨modv, hv⟩ := Option.isSome_iff_exists.mp hs
    constructor
    · simp [unload_module, hv, hreq, hdep]
    · have hmods : (unload_module env st m).2.modules =
          dictErase (cogErase env (removeModuleCommands
            (teardownStep st m modv) m) m).modules m := by
        simp [unload_module, hv, hreq, hdep, pushEvent]
      rw [hmods, cogErase_modules, removeModuleCommands_modules,
        teardownStep_modules]
/-- Witness for `unload_module_amended`: the three branches at concrete
states. -/
theorem unload_module_amended_witness :
    unload_module envC1 stC1 "a" = (false, stC1) ∧
    unload_module envC1 stC1 "zz" = (false, stC1) ∧
    (unload_module envC5 stPlainB "b").1 = true ∧
    (unload_module envC5 stPlainB "b").2.modules =
      dictErase stPlainB.modules "b" :=
  ⟨(unload_module_amended envC1 stC1 "a").1 (by decide)
      (Or.inr (by decide)),
    (unload_module_amended envC1 stC1 "zz").2.1 (by decide),
    ((unload_module_amended envC5 stPlainB "b").2.2 (by decide) (by decide)
      (by decide)).1,
    ((unload_module_amended envC5 stPlainB "b").2.2 (by decide) (by decide)
      (by decide)).2⟩

end Bot

/-! ## C9: split_long_text -/

namespace StaffList

theorem chunkPieces_bound (maxLen : Nat) (hm : 1 ≤ maxLen) :
    ∀ l : List Char,
      (∀ p ∈ (chunkPieces maxLen l).1, p.length ≤ maxLen) ∧
      (chunkPieces maxLen l).2.length ≤ maxLen := by
  have H : ∀ n : Nat, ∀ l : List Char, l.length ≤ n →
      (∀ p ∈ (chunkPieces maxLen l).1, p.length ≤ maxLen) ∧
      (chunkPieces maxLen l).2.length ≤ maxLen := by
    intro n
    induction n with
    | zero =>
      intro l hl
      have hcond : maxLen = 0 ∨ l.length ≤ maxLen := by omega
      rw [chunkPieces, if_pos hcond]
      exact ⟨by simp, by simpa using Nat.le_trans hl (by omega)⟩
    | succ n ih =>
      intro l hl
      by_cases hcond : maxLen = 0 ∨ l.length ≤ maxLen
      · rw [chunkPieces, if_pos hcond]
        have hll : l.length ≤ maxLen := by omega
        exact ⟨by simp, by simpa using hll⟩
      · rw [chunkPieces, if_neg hcond]
        have hlen : (l.drop maxLen).length ≤ n := by
          simp only [List.length_drop]
          omega
        obtain ⟨ih1, ih2⟩ := ih (l.drop maxLen) hlen
        refine ⟨?_, by simpa using ih2⟩
        intro p hp
        simp only [List.mem_cons] at hp
        cases hp with
        | inl h =>
          subst h
          simp only [List.length_take]
          omega
        | inr h => exact ih1 p h
  intro l
  exact H l.length l le_rfl

theorem foldl_preserves {α σ : Type} (f : σ → α → σ) (P : σ → Prop)
    (hf : ∀ s a, P s → P (f s a)) :
    ∀ l : List α, ∀ s, P s → P (l.foldl f s) := by
  intro l
  induction l with
  | nil => intro s hs; exact hs
  | cons a r ih =>
    intro s hs
    exact ih (f s a) (hf s a hs)

theorem splitStep_inv (maxLen : Nat) (hm : 1 ≤ maxLen)
    (acc : List (List Char) × List Char) (line : List Char)
    (h : (∀ p ∈ acc.1, p.length ≤ maxLen) ∧ acc.2.length ≤ maxLen) :
    (∀ p ∈ (splitStep maxLen acc line).1, p.length ≤ maxLen) ∧
    (splitStep maxLen acc line).2.length ≤ maxLen := by
  obtain ⟨h1, h2⟩ := h
  unfold splitStep
  by_cases hl : maxLen < line.length
  · simp only [hl, if_true]
    obtain ⟨hc1, hc2⟩ := chunkPieces_bound maxLen hm line
    refine ⟨?_, hc2⟩
    intro p hp
    simp only [List.mem_append] at hp
    cases hp with
    | inl hp1 =>
      by_cases he : acc.2.isEmpty
      · simp only [he, if_true] at hp1
        exact h1 p hp1
      · simp only [he, Bool.false_eq_true, if_false, List.mem_append,
          List.mem_singleton] at hp1
        cases hp1 with
        | inl hq => exact h1 p hq
        | inr hq => subst hq; exact h2
    | inr hp2 => exact hc1 p hp2
  · simp only [hl, if_false]
    by_cases hov : maxLen < acc.2.length + line.length + 1
    · simp only [hov, if_true]
      refine ⟨?_, by omega⟩
      intro p hp
      simp only [List.mem_append, List.mem_singleton] at hp
      cases hp with
      | inl hq => exact h1 p hq
      | inr hq => subst hq; exact h2
    · simp only [hov, if_false]
      by_cases he : acc.2.isEmpty
      · simp only [he, if_true]
        exact ⟨h1, by omega⟩
      · simp only [he, Bool.false_eq_true, if_false]
        refine ⟨h1, ?_⟩
        simp only [List.length_append, List.length_cons]
        omega

/-- C9: every part produced by `split_long_text` has length at most
`max_length`, and a text that already fits is returned as the singleton
`[text]`. -/
theorem split_long_text_spec (text : List Char) (maxLen : Nat)
    (hm : 1 ≤ maxLen) :
    (∀ p ∈ split_long_text text maxLen, p.length ≤ maxLen) ∧
    (text.length ≤ maxLen → split_long_text text maxLen = [text]) := by
  constructor
  · intro p hp
    unfold split_long_text at hp
    by_cases ht : text.length ≤ maxLen
    · simp only [ht, if_true, List.mem_singleton] at hp
      subst hp
      exact ht
    · simp only [ht, if_false] at hp
      have hinv := foldl_preserves (splitStep maxLen)
        (fun acc => (∀ q ∈ acc.1, q.length ≤ maxLen) ∧
          acc.2.length ≤ maxLen)
        (fun s a hs => splitStep_inv maxLen hm s a hs)
        (splitNl text) ([], []) ⟨by simp, by simp⟩
      obtain ⟨hi1, hi2⟩ := hinv
      by_cases he :
          ((splitNl text).foldl (splitStep maxLen) ([], [])).2.isEmpty
      · simp only [he, if_true] at hp
        exact hi1 p hp
      · simp only [he, Bool.false_eq_true, if_false, List.mem_append,
          List.mem_singleton] at hp
        cases hp with
        | inl hq => exact hi1 p hq
        | inr hq => subst hq; exact hi2
  · intro ht
    unfold split_long_text
    simp [ht]

/-- Witness for `split_long_text_spec` on concrete texts. -/
theorem split_long_text_spec_witness :
    (∀ p ∈ split_long_text "hello world".data 5, p.length ≤ 5) ∧
    split_long_text "ab".data 5 = ["ab".data] :=
  ⟨(split_long_text_spec "hello world".data 5 (by decide)).1,
    (split_long_text_spec "ab".data 5 (by decide)).2 (by decide)⟩

end StaffList

/-! ## C7: pagination at 25 fields -/

namespace StaffList

theorem flushAdd_inv (title : String) (color : Nat)
    (stt : List Embed × Embed × Nat) (n v : String)
    (h : stt.2.2 = stt.2.1.fields.length ∧ stt.2.2 ≤ 25 ∧
      ∀ e ∈ stt.1, e.fields.length = 25) :
    (flushAdd title color stt n v).2.2 =
      (flushAdd title color stt n v).2.1.fields.length ∧
    (flushAdd title color stt n v).2.2 ≤ 25 ∧
    ∀ e ∈ (flushAdd title color stt n v).1, e.fields.length = 25 := by
  obtain ⟨h1, h2, h3⟩ := h
  unfold flushAdd
  by_cases hf : 25 ≤ stt.2.2
  · simp only [hf, if_true]
    refine ⟨by simp [Embed.add_field], by simp [Embed.add_field], ?_⟩
    intro e he
    rcases List.mem_append.mp he with hq | hq
    · exact h3 e hq
    · rw [List.mem_singleton] at hq
      subst hq
      rw [← h1]
      omega
  · simp only [hf, if_false]
    refine ⟨by simp [Embed.add_field, h1], by omega, h3⟩

theorem stepRole_inv (sorting su : Bool) (title : String) (color : Nat)
    (stt : List Embed × Embed × Nat) (rd : Role × String)
    (h : stt.2.2 = stt.2.1.fields.length ∧ stt.2.2 ≤ 25 ∧
      ∀ e ∈ stt.1, e.fields.length = 25) :
    (stepRole sorting su title color stt rd).2.2 =
      (stepRole sorting su title color stt rd).2.1.fields.length ∧
    (stepRole sorting su title color stt rd).2.2 ≤ 25 ∧
    ∀ e ∈ (stepRole sorting su title color stt rd).1,
      e.fields.length = 25 := by
  unfold stepRole
  dsimp only
  split
  all_goals
    split
    · exact flushAdd_inv _ _ _ _ _ h
    · split
      · exact flushAdd_inv _ _ _ _ _ h
      · exact foldl_preserves _
          (fun s : List Embed × Embed × Nat =>
            s.2.2 = s.2.1.fields.length ∧ s.2.2 ≤ 25 ∧
              ∀ e ∈ s.1, e.fields.length = 25)
          (fun s a hs => flushAdd_inv _ _ _ _ _ hs) _ _ h

theorem pagesOf_ok (res : List Embed × Embed × Nat)
    (h : res.2.2 = res.2.1.fields.length ∧ res.2.2 ≤ 25 ∧
      ∀ e ∈ res.1, e.fields.length = 25) :
    (∀ e ∈ pagesOf res, e.fields.length ≤ 25) ∧
    (∀ e ∈ (pagesOf res).dropLast, e.fields.length = 25) := by
  obtain ⟨h1, h2, h3⟩ := h
  unfold pagesOf
  by_cases hc : 0 < res.2.2
  · simp only [hc, if_true]
    constructor
    · intro e he
      rcases List.mem_append.mp he with hq | hq
      · exact le_of_eq (h3 e hq)
      · rw [List.mem_singleton] at hq
        subst hq
        rw [← h1]
        exact h2
    · intro e he
      rw [List.dropLast_concat] at he
      exact h3 e he
  · simp only [hc, if_false]
    exact ⟨fun e he => le_of_eq (h3 e he),
      fun e he => h3 e (List.dropLast_subset _ he)⟩

theorem addFooters_fieldsMap (l : List Embed) :
    (addFooters l).map (fun e => e.fields) = l.map (fun e => e.fields) := by
  unfold addFooters
  split
  · rw [List.map_map]
    rw [show ((fun e : Embed => e.fields) ∘
        (fun p : Nat × Embed =>
          { p.2 with footer := some ("Seite " ++ toString (p.1 + 1) ++
            "/" ++ toString l.length) })) =
        ((fun e : Embed => e.fields) ∘ Prod.snd) from rfl]
    rw [← List.map_map, List.enum_map_snd]
  · rfl

theorem map_dropLast_comm {α β : Type} (f : α → β) :
    ∀ l : List α, l.dropLast.map f = (l.map f).dropLast := by
  intro l
  induction l with
  | nil => rfl
  | cons a r ih =>
    cases r with
    | nil => rfl
    | cons b r' =>
      simp only [List.dropLast_cons₂, List.map_cons] at ih ⊢
      rw [ih]

theorem embeds_pages_ok (sorting su : Bool) (title : String) (color : Nat)
    (rd : List (Role × String)) :
    (∀ e ∈ addFooters (pagesOf (rd.foldl (stepRole sorting su title color)
      ([], ⟨title, color, none, [], none⟩, 0))), e.fields.length ≤ 25) ∧
    (∀ e ∈ (addFooters (pagesOf (rd.foldl (stepRole sorting su title color)
      ([], ⟨title, color, none, [], none⟩, 0)))).dropLast,
      e.fields.length = 25) := by
  have hinv := foldl_preserves (stepRole sorting su title color)
    (fun s : List Embed × Embed × Nat =>
      s.2.2 = s.2.1.fields.length ∧ s.2.2 ≤ 25 ∧
        ∀ e ∈ s.1, e.fields.length = 25)
    (fun s a hs => stepRole_inv sorting su title color s a hs)
    rd ([], ⟨title, color, none, [], none⟩, 0) ⟨rfl, Nat.zero_le _, by simp⟩
  have hpages := pagesOf_ok _ hinv
  constructor
  · intro e he
    have hmm := List.mem_map_of_mem (fun e : Embed => e.fields) he
    rw [addFooters_fieldsMap] at hmm
    obtain ⟨e', he', hf⟩ := List.mem_map.mp hmm
    rw [show e.fields.length = e'.fields.length by rw [hf]]
    exact hpages.1 e' he'
  · intro e he
    have hmm := List.mem_map_of_mem (fun e : Embed => e.fields) he
    rw [map_dropLast_comm, addFooters_fieldsMap, ← map_dropLast_comm]
      at hmm
    obtain ⟨e', he', hf⟩ := List.mem_map.mp hmm
    rw [show e.fields.length = e'.fields.length by rw [hf]]
    exact hpages.2 e' he'

/-- C7: every embed produced by `generate_list_embeds` has at most 25
fields, and every page except the final one is closed at exactly 25
fields. -/
theorem generate_list_embeds_pagination (table : List Row) (g : Guild)
    (ld : ListData) (page : Int) :
    ((generate_list_embeds table g ld page).1.all
      (fun e => decide (e.fields.length ≤ 25))) = true ∧
    ((generate_list_embeds table g ld page).1.dropLast.all
      (fun e => decide (e.fields.length = 25))) = true := by
  constructor
  · rw [List.all_eq_true]
    intro e he
    rw [decide_eq_true_eq]
    revert he
    simp only [generate_list_embeds]
    split
    · intro he
      rw [List.mem_singleton] at he
      subst he
      simp
    · split
      · intro he
        rw [List.mem_singleton] at he
        subst he
        simp
      · intro he
        exact (embeds_pages_ok ld.sorting_alphabetical ld.show_usernames
          ld.title (parseColor ld.color_str) _).1 e he
  · rw [List.all_eq_true]
    intro e he
    rw [decide_eq_true_eq]
    revert he
    simp only [generate_list_embeds]
    split
    · intro he
      simp at he
    · split
      · intro he
        simp at he
      · intro he
        exact (embeds_pages_ok ld.sorting_alphabetical ld.show_usernames
          ld.title (parseColor ld.color_str) _).2 e he

end StaffList

/-! ## Preservation machinery for the module loader -/

namespace Bot

theorem loadDepsF_pres (loadF : St → String → Option (Bool × St))
    (m : String) (P : St → Prop)
    (hE : ∀ s e, P s → P (pushError s e)) :
    ∀ ds : List String,
      (∀ s d r s', d ∈ ds → loadF s d = some (r, s') → P s → P s') →
      ∀ st r st', loadDepsF loadF m st ds = some (r, st') → P st → P st' := by
  intro ds
  induction ds with
  | nil =>
    intro _ st r st' h hP
    unfold loadDepsF at h
    simp only [Option.some.injEq, Prod.mk.injEq] at h
    rw [← h.2]
    exact hP
  | cons d rest ih =>
    intro hF st r st' h hP
    unfold loadDepsF at h
    by_cases hs : (getVal st.modules d).isSome
    · rw [if_pos hs] at h
      exact ih (fun s dd rr ss hdd => hF s dd rr ss (List.mem_cons_of_mem _ hdd))
        st r st' h hP
    · rw [if_neg hs] at h
      cases hld : loadF st d with
      | none => rw [hld] at h; simp at h
      | some p =>
        obtain ⟨b, s1⟩ := p
        rw [hld] at h
        have hP1 : P s1 := hF st d b s1 (List.mem_cons_self _ _) hld hP
        cases b with
        | false =>
          have h' : (some (false, pushError s1
              ("Modul " ++ m ++ " benoetigt " ++ d ++
                ", welches nicht geladen werden konnte.")) :
              Option (Bool × St)) = some (r, st') := h
          simp only [Option.some.injEq, Prod.mk.injEq] at h'
          rw [← h'.2]
          exact hE _ _ hP1
        | true =>
          exact ih (fun s dd rr ss hdd =>
            hF s dd rr ss (List.mem_cons_of_mem _ hdd)) s1 r st' h hP1

theorem loadAllF_pres (loadF : St → String → Option (Bool × St))
    (P : St → Prop)
    (hF : ∀ s d r s', loadF s d = some (r, s') → P s → P s') :
    ∀ ds st st', loadAllF loadF st ds = some st' → P st → P st' := by
  intro ds
  induction ds with
  | nil =>
    intro st st' h hP
    unfold loadAllF at h
    simp only [Option.some.injEq] at h
    rw [← h]
    exact hP
  | cons d rest ih =>
    intro st st' h hP
    unfold loadAllF at h
    cases hld : loadF st d with
    | none => rw [hld] at h; simp at h
    | some p =>
      obtain ⟨b, s1⟩ := p
      rw [hld] at h
      exact ih s1 st' h (hF st d b s1 hld hP)

theorem registerPhase_pres (env : Env) (m : String) (f : ModuleFile)
    (st2 : St) (P : St → Prop)
    (hE : ∀ s e, P s → P (pushError s e))
    (hEv : ∀ s, P s → P (pushEvent s (Event.setupEvt m)))
    (hCog : ∀ s c, P s → P { s with loaded_cogs := s.loaded_cogs ++ [c] })
    (hMod : ∀ s, P s → P { s with modules := dictSet s.modules m f })
    (hP : P st2) : P (registerPhase env m f st2).2 := by
  unfold registerPhase
  dsimp only
  split
  · exact hE _ _ hP
  · split
    · exact hP
    · split
      · split
        · split
          · exact hMod _ (hEv _ hP)
          · exact hMod _ (hCog _ _ (hEv _ hP))
        · exact hMod _ (hEv _ hP)
      · split
        · exact hCog _ _ (hEv _ hP)
        · exact hEv _ hP
      · exact hE _ _ (hEv _ hP)

theorem loadModuleRec_pres (env : Env) (P : St → Prop)
    (hE : ∀ s e, P s → P (pushError s e))
    (hEv : ∀ s d, P s → P (pushEvent s (Event.setupEvt d)))
    (hCog : ∀ s c, P s → P { s with loaded_cogs := s.loaded_cogs ++ [c] })
    (hDeps : ∀ s d fd ds, getVal env.files d = some fd → fd.deps = some ds →
      P s → P (recordDeps s d (some ds)))
    (hMod : ∀ s d fd, getVal env.files d = some fd →
      P s → P { s with modules := dictSet s.modules d fd }) :
    ∀ fuel st d r st', loadModuleRec env fuel st d = some (r, st') →
      P st → P st' := by
  intro fuel
  induction fuel with
  | zero =>
    intro st d r st' h
    simp [loadModuleRec] at h
  | succ n ih =>
    intro st d r st' h hP
    rw [loadModuleRec] at h
    by_cases h1 : (getVal st.modules d).isSome
    · rw [if_pos h1] at h
      simp only [Option.some.injEq, Prod.mk.injEq] at h
      rw [← h.2]
      exact hP
    · rw [if_neg h1] at h
      by_cases h2 : check_module_requirements env d = false
      · rw [if_pos h2] at h
        simp only [Option.some.injEq, Prod.mk.injEq] at h
        rw [← h.2]
        exact hP
      · rw [if_neg h2] at h
        cases hf : getVal env.files d with
        | none =>
          rw [hf] at h
          dsimp only at h
          simp only [Option.some.injEq, Prod.mk.injEq] at h
          rw [← h.2]
          exact hE _ _ hP
        | some f =>
          rw [hf] at h
          dsimp only at h
          by_cases h3 : f.spec_ok = false
          · rw [if_pos h3] at h
            simp only [Option.some.injEq, Prod.mk.injEq] at h
            rw [← h.2]
            exact hE _ _ hP
          · rw [if_neg h3] at h
            by_cases h4 : f.exec_ok = false
            · rw [if_pos h4] at h
              simp only [Option.some.injEq, Prod.mk.injEq] at h
              rw [← h.2]
              exact hE _ _ hP
            · rw [if_neg h4] at h
              cases hd : f.deps with
              | none =>
                rw [hd] at h
                dsimp only at h
                simp only [Option.some.injEq] at h
                have hst : st' = (registerPhase env d f
                    (recordDeps st d none)).2 := by
                  rw [h]
                exact hst ▸ registerPhase_pres env d f (recordDeps st d none)
                  P hE (fun s hs => hEv s d hs) hCog
                  (fun s hs => hMod s d f hf hs) hP
              | some ds =>
                rw [hd] at h
                dsimp only at h
                have hP1 : P (recordDeps st d (some ds)) :=
                  hDeps st d f ds hf hd hP
                cases hld : loadDepsF (fun s dd => loadModuleRec env n s dd) d
                    (recordDeps st d (some ds)) ds with
                | none => rw [hld] at h; simp at h
                | some p =>
                  obtain ⟨b, st2⟩ := p
                  rw [hld] at h
                  have hP2 : P st2 :=
                    loadDepsF_pres _ d P hE ds
                      (fun s dd rr ss _ hh hPs => ih s dd rr ss hh hPs)
                      _ b st2 hld hP1
                  cases b with
                  | false =>
                    dsimp only at h
                    simp only [Option.some.injEq, Prod.mk.injEq] at h
                    rw [← h.2]
                    exact hP2
                  | true =>
                    dsimp only at h
                    simp only [Option.some.injEq] at h
                    have hst : st' = (registerPhase env d f st2).2 := by
                      rw [h]
                    exact hst ▸ registerPhase_pres env d f st2 P hE
                      (fun s hs => hEv s d hs) hCog
                      (fun s hs => hMod s d f hf hs) hP2

end Bot

namespace Bot

theorem recordDeps_modules (s : St) (d : String) (o : Option (List String)) :
    (recordDeps s d o).modules = s.modules := by
  cases o <;> rfl

theorem recordDeps_cogs (s : St) (d : String) (o : Option (List String)) :
    (recordDeps s d o).loaded_cogs = s.loaded_cogs := by
  cases o <;> rfl

theorem recordDeps_trace (s : St) (d : String) (o : Option (List String)) :
    (recordDeps s d o).trace = s.trace := by
  cases o <;> rfl

theorem syncCount_append_setup (tr : List Event) (d : String) :
    syncCount (tr ++ [Event.setupEvt d]) = syncCount tr := by
  simp [syncCount, List.count_singleton]

theorem syncCount_append_teardown (tr : List Event) (d : String) :
    syncCount (tr ++ [Event.teardownEvt d]) = syncCount tr := by
  simp [syncCount, List.count_singleton]

theorem syncCount_append_sync (tr : List Event) :
    syncCount (tr ++ [Event.syncEvt]) = syncCount tr + 1 := by
  simp [syncCount, List.count_singleton]

/-- `_load_module` never removes a loaded module: `isSome` of any key is
preserved. -/
theorem loadModuleRec_mono (env : Env) (k : String) :
    ∀ fuel st d r st', loadModuleRec env fuel st d = some (r, st') →
      (getVal st.modules k).isSome = true →
      (getVal st'.modules k).isSome = true := by
  refine loadModuleRec_pres env
    (fun s => (getVal s.modules k).isSome = true)
    (fun s e hs => hs) (fun s d hs => hs) (fun s c hs => hs)
    (fun s d fd ds _ _ hs => ?_) (fun s d fd _ hs => ?_)
  · show (getVal (recordDeps s d (some ds)).modules k).isSome = true
    rw [recordDeps_modules]
    exact hs
  · show (getVal (dictSet s.modules d fd) k).isSome = true
    rw [getVal_dictSet]
    by_cases hkd : k = d
    · simp [hkd]
    · simp only [hkd, if_false]
      exact hs

/-- `_load_module` never pushes a sync event. -/
theorem loadModuleRec_syncCount (env : Env) :
    ∀ fuel st d r st', loadModuleRec env fuel st d = some (r, st') →
      syncCount st'.trace = syncCount st.trace := by
  intro fuel st d r st' h
  refine loadModuleRec_pres env
    (fun s => syncCount s.trace = syncCount st.trace)
    (fun s e hs => hs) (fun s dd hs => ?_) (fun s c hs => hs)
    (fun s dd fd ds _ _ hs => ?_) (fun s dd fd _ hs => hs)
    fuel st d r st' h rfl
  · show syncCount (s.trace ++ [Event.setupEvt dd]) = syncCount st.trace
    rw [syncCount_append_setup]
    exact hs
  · show syncCount (recordDeps s dd (some ds)).trace = syncCount st.trace
    rw [recordDeps_trace]
    exact hs

/-- A recorded dependency list for `m` is stable under further loads,
since any rewrite of `module_dependencies[m]` writes the same
environment-determined list. -/
theorem loadModuleRec_mdeps (env : Env) (m : String) (f : ModuleFile)
    (ds : List String) (hfile : getVal env.files m = some f)
    (hdeps : f.deps = some ds) :
    ∀ fuel st d r st', loadModuleRec env fuel st d = some (r, st') →
      getVal st.module_dependencies m = some ds →
      getVal st'.module_dependencies m = some ds := by
  refine loadModuleRec_pres env
    (fun s => getVal s.module_dependencies m = some ds)
    (fun s e hs => hs) (fun s d hs => hs) (fun s c hs => hs)
    (fun s d fd ds' hfd hds' hs => ?_) (fun s d fd _ hs => hs)
  show getVal (dictSet s.module_dependencies d ds') m = some ds
  rw [getVal_dictSet]
  by_cases hmd : m = d
  · subst hmd
    rw [hfile] at hfd
    simp only [Option.some.injEq] at hfd
    rw [← hfd] at hds'
    rw [hdeps] at hds'
    simp only [Option.some.injEq] at hds'
    simp [hds']
  · simp only [hmd, if_false]
    exact hs

/-- Loaded cogs are only ever appended to by `_load_module`. -/
theorem loadModuleRec_cogs_mono (env : Env) (c : String) :
    ∀ fuel st d r st', loadModuleRec env fuel st d = some (r, st') →
      c ∈ st.loaded_cogs → c ∈ st'.loaded_cogs := by
  refine loadModuleRec_pres env (fun s => c ∈ s.loaded_cogs)
    (fun s e hs => hs) (fun s d hs => hs) (fun s c' hs => ?_)
    (fun s d fd ds _ _ hs => ?_) (fun s d fd _ hs => hs)
  · show c ∈ s.loaded_cogs ++ [c']
    exact List.mem_append_left _ hs
  · show c ∈ (recordDeps s d (some ds)).loaded_cogs
    rw [recordDeps_cogs]
    exact hs

/-- Unfolding `_load_module` down to the dependency loop, under the guard
hypotheses. -/
theorem loadModuleRec_unfold_deps (env : Env) (m : String) (f : ModuleFile)
    (ds : List String) (fuel : Nat) (st : St)
    (hnl : getVal st.modules m = none)
    (hreq : check_module_requirements env m = true)
    (hfile : getVal env.files m = some f)
    (hspec : f.spec_ok = true) (hexec : f.exec_ok = true)
    (hdeps : f.deps = some ds) :
    loadModuleRec env (fuel + 1) st m =
      match loadDepsF (fun s dd => loadModuleRec env fuel s dd) m
          (recordDeps st m (some ds)) ds with
      | none => none
      | some (false, st2) => some (false, st2)
      | some (true, st2) => some (registerPhase env m f st2) := by
  rw [loadModuleRec]
  rw [hnl, hfile]
  simp only [Option.isSome_none, Bool.false_eq_true, if_false, hreq,
    Bool.true_eq_false, hspec, hexec, hdeps]

/-- The registration tail adds `m` to `modules` whenever it returns
`True`. -/
theorem registerPhase_true_isSome (env : Env) (m : String) (f : ModuleFile)
    (st2 : St) : (registerPhase env m f st2).1 = true →
    (getVal (registerPhase env m f st2).2.modules m).isSome = true := by
  unfold registerPhase
  dsimp only
  split
  · intro h
    simp at h
  · split
    · intro h
      simp at h
    · split
      · intro _
        simp [getVal_dictSet]
      · intro h
        simp at h
      · intro h
        simp at h

/-- The registration tail never touches `module_dependencies`. -/
theorem registerPhase_mdeps (env : Env) (m : String) (f : ModuleFile)
    (st2 : St) :
    (registerPhase env m f st2).2.module_dependencies =
      st2.module_dependencies := by
  unfold registerPhase
  dsimp only
  split
  · rfl
  · split
    · rfl
    · split
      · split
        · split <;> rfl
        · rfl
      · split <;> rfl
      · rfl

/-- If the registration tail returns `True`, `modules` only grows by
`dictSet`, so `isSome` of any key is preserved. -/
theorem registerPhase_mono (env : Env) (m : String) (f : ModuleFile)
    (st2 : St) (k : String) (h : (getVal st2.modules k).isSome = true) :
    (getVal (registerPhase env m f st2).2.modules k).isSome = true := by
  refine registerPhase_pres env m f st2
    (fun s => (getVal s.modules k).isSome = true)
    (fun s e hs => hs) (fun s hs => hs) (fun s c hs => hs)
    (fun s hs => ?_) h
  show (getVal (dictSet s.modules m f) k).isSome = true
  rw [getVal_dictSet]
  by_cases hkm : k = m
  · simp [hkm]
  · simp only [hkm, if_false]
    exact hs

/-- When the dependency loop finishes successfully, every listed
dependency is loaded. -/
theorem loadDepsF_allLoaded (loadF : St → String → Option (Bool × St))
    (m : String)
    (hMono : ∀ s d r s' k, loadF s d = some (r, s') →
      (getVal s.modules k).isSome = true →
      (getVal s'.modules k).isSome = true)
    (hTrue : ∀ s d s', loadF s d = some (true, s') →
      (getVal s'.modules d).isSome = true) :
    ∀ ds st st', loadDepsF loadF m st ds = some (true, st') →
      ∀ d ∈ ds, (getVal st'.modules d).isSome = true := by
  intro ds
  induction ds with
  | nil =>
    intro st st' _ d hd
    simp at hd
  | cons d0 rest ih =>
    intro st st' h d hd
    have hpres : ∀ s r s', loadDepsF loadF m s rest = some (r, s') →
        (getVal s.modules d0).isSome = true →
        (getVal s'.modules d0).isSome = true := by
      intro s r s' hh hs
      exact loadDepsF_pres loadF m
        (fun s => (getVal s.modules d0).isSome = true)
        (fun s e hs => hs) rest
        (fun s dd rr ss _ hld hs => hMono s dd rr ss d0 hld hs)
        s r s' hh hs
    unfold loadDepsF at h
    by_cases hs : (getVal st.modules d0).isSome
    · rw [if_pos hs] at h
      rcases List.mem_cons.mp hd with hd0 | hdr
      · subst hd0
        exact hpres st true st' h hs
      · exact ih st st' h d hdr
    · rw [if_neg hs] at h
      cases hld : loadF st d0 with
      | none => rw [hld] at h; simp at h
      | some p =>
        obtain ⟨b, s1⟩ := p
        rw [hld] at h
        cases b with
        | false =>
          dsimp only at h
          simp at h
        | true =>
          dsimp only at h
          rcases List.mem_cons.mp hd with hd0 | hdr
          · subst hd0
            exact hpres s1 true st' h (hTrue st d s1 hld)
          · exact ih s1 st' h d hdr

end Bot

/-! ## C4: dependency tracking -/

namespace Bot

/-- A `_load_module` call that returns `True` leaves its module loaded. -/
theorem loadModuleRec_true_isSome (env : Env) :
    ∀ fuel st d st', loadModuleRec env fuel st d = some (true, st') →
      (getVal st'.modules d).isSome = true := by
  intro fuel
  cases fuel with
  | zero =>
    intro st d st' h
    simp [loadModuleRec] at h
  | succ n =>
    intro st d st' h
    rw [loadModuleRec] at h
    by_cases h1 : (getVal st.modules d).isSome
    · rw [if_pos h1] at h
      simp only [Option.some.injEq, Prod.mk.injEq] at h
      rw [← h.2]
      exact h1
    · rw [if_neg h1] at h
      by_cases h2 : check_module_requirements env d = false
      · rw [if_pos h2] at h
        simp at h
      · rw [if_neg h2] at h
        cases hf : getVal env.files d with
        | none =>
          rw [hf] at h
          dsimp only at h
          simp at h
        | some f =>
          rw [hf] at h
          dsimp only at h
          by_cases h3 : f.spec_ok = false
          · rw [if_pos h3] at h
            simp at h
          · rw [if_neg h3] at h
            by_cases h4 : f.exec_ok = false
            · rw [if_pos h4] at h
              simp at h
            · rw [if_neg h4] at h
              cases hd : f.deps with
              | none =>
                rw [hd] at h
                dsimp only at h
                simp only [Option.some.injEq] at h
                have hr : (registerPhase env d f (recordDeps st d none)).1 =
                    true := by rw [h]
                have hst : st' =
                    (registerPhase env d f (recordDeps st d none)).2 := by
                  rw [h]
                rw [hst]
                exact registerPhase_true_isSome env d f _ hr
              | some ds =>
                rw [hd] at h
                dsimp only at h
                cases hld : loadDepsF (fun s dd => loadModuleRec env n s dd)
                    d (recordDeps st d (some ds)) ds with
                | none => rw [hld] at h; simp at h
                | some p =>
                  obtain ⟨b, st2⟩ := p
                  rw [hld] at h
                  cases b with
                  | false =>
                    dsimp only at h
                    simp at h
                  | true =>
                    dsimp only at h
                    simp only [Option.some.injEq] at h
                    have hr : (registerPhase env d f st2).1 = true := by
                      rw [h]
                    have hst : st' = (registerPhase env d f st2).2 := by
                      rw [h]
                    rw [hst]
                    exact registerPhase_true_isSome env d f _ hr

/-- When no module file lists `m` as a dependency, loading any other
module never adds `m` to `modules`. -/
theorem loadModuleRec_notLoaded (env : Env) (m : String)
    (hnd : noDepOn env m) :
    ∀ fuel st d r st', d ≠ m →
      loadModuleRec env fuel st d = some (r, st') →
      getVal st.modules m = none → getVal st'.modules m = none := by
  intro fuel
  induction fuel with
  | zero =>
    intro st d r st' _ h
    simp [loadModuleRec] at h
  | succ n ih =>
    intro st d r st' hdm h hP
    rw [loadModuleRec] at h
    by_cases h1 : (getVal st.modules d).isSome
    · rw [if_pos h1] at h
      simp only [Option.some.injEq, Prod.mk.injEq] at h
      rw [← h.2]
      exact hP
    · rw [if_neg h1] at h
      by_cases h2 : check_module_requirements env d = false
      · rw [if_pos h2] at h
        simp only [Option.some.injEq, Prod.mk.injEq] at h
        rw [← h.2]
        exact hP
      · rw [if_neg h2] at h
        cases hf : getVal env.files d with
        | none =>
          rw [hf] at h
          dsimp only at h
          simp only [Option.some.injEq, Prod.mk.injEq] at h
          rw [← h.2]
          exact hP
        | some f =>
          rw [hf] at h
          dsimp only at h
          by_cases h3 : f.spec_ok = false
          · rw [if_pos h3] at h
            simp only [Option.some.injEq, Prod.mk.injEq] at h
            rw [← h.2]
            exact hP
          · rw [if_neg h3] at h
            by_cases h4 : f.exec_ok = false
            · rw [if_pos h4] at h
              simp only [Option.some.injEq, Prod.mk.injEq] at h
              rw [← h.2]
              exact hP
            · rw [if_neg h4] at h
              have hreg : ∀ s2 : St, getVal s2.modules m = none →
                  getVal (registerPhase env d f s2).2.modules m = none := by
                intro s2 hs2
                refine registerPhase_pres env d f s2
                  (fun s => getVal s.modules m = none)
                  (fun s e hs => hs) (fun s hs => hs) (fun s c hs => hs)
                  (fun s hs => ?_) hs2
                show getVal (dictSet s.modules d f) m = none
                rw [getVal_dictSet, if_neg (fun hc : m = d => hdm hc.symm)]
                exact hs
              cases hd : f.deps with
              | none =>
                rw [hd] at h
                dsimp only at h
                simp only [Option.some.injEq] at h
                have hst : st' =
                    (registerPhase env d f (recordDeps st d none)).2 := by
                  rw [h]
                rw [hst]
                exact hreg _ hP
              | some ds =>
                rw [hd] at h
                dsimp only at h
                have hmds : m ∉ ds := by
                  intro hmem
                  exact hnd (d, f) (getVal_mem hf) ds hd hmem
                cases hld : loadDepsF (fun s dd => loadModuleRec env n s dd)
                    d (recordDeps st d (some ds)) ds with
                | none => rw [hld] at h; simp at h
                | some p =>
                  obtain ⟨b, st2⟩ := p
                  rw [hld] at h
                  have hinit : getVal (recordDeps st d (some ds)).modules m =
                      none := by
                    rw [recordDeps_modules]
                    exact hP
                  have hP2 : getVal st2.modules m = none :=
                    loadDepsF_pres _ d (fun s => getVal s.modules m = none)
                      (fun s e hs => hs) ds
                      (fun s dd rr ss hdd hh hPs =>
                        ih s dd rr ss (fun hc => hmds (hc ▸ hdd)) hh hPs)
                      _ b st2 hld hinit
                  cases b with
                  | false =>
                    dsimp only at h
                    simp only [Option.some.injEq, Prod.mk.injEq] at h
                    rw [← h.2]
                    exact hP2
                  | true =>
                    dsimp only at h
                    simp only [Option.some.injEq] at h
                    have hst : st' = (registerPhase env d f st2).2 := by
                      rw [h]
                    rw [hst]
                    exact hreg _ hP2

/-- C4: when a module declares a `DEPENDENCIES` list, `_load_module`
records it in `module_dependencies`; on success every listed dependency
is loaded; and when the dependency loop fails, the module is not added to
`modules` and the call returns `False`. -/
theorem load_module_dependency_tracking (env : Env) (m : String)
    (f : ModuleFile) (ds : List String) (fuel : Nat) (st : St)
    (hnl : getVal st.modules m = none)
    (hreq : check_module_requirements env m = true)
    (hfile : getVal env.files m = some f)
    (hspec : f.spec_ok = true) (hexec : f.exec_ok = true)
    (hdeps : f.deps = some ds) :
    (∀ r st', loadModuleRec env (fuel + 1) st m = some (r, st') →
      getVal st'.module_dependencies m = some ds) ∧
    (∀ st', loadModuleRec env (fuel + 1) st m = some (true, st') →
      ∀ d ∈ ds, (getVal st'.modules d).isSome = true) ∧
    (noDepOn env m →
      ∀ st1, loadDepsF (fun s dd => loadModuleRec env fuel s dd) m
        (recordDeps st m (some ds)) ds = some (false, st1) →
      loadModuleRec env (fuel + 1) st m = some (false, st1) ∧
      getVal st1.modules m = none) := by
  have hrec : getVal (recordDeps st m (some ds)).module_dependencies m =
      some ds := by
    show getVal (dictSet st.module_dependencies m ds) m = some ds
    rw [getVal_dictSet]
    simp
  refine ⟨?_, ?_, ?_⟩
  · intro r st' h
    rw [loadModuleRec_unfold_deps env m f ds fuel st hnl hreq hfile hspec
      hexec hdeps] at h
    cases hld : loadDepsF (fun s dd => loadModuleRec env fuel s dd) m
        (recordDeps st m (some ds)) ds with
    | none => rw [hld] at h; simp at h
    | some p =>
      obtain ⟨b, st2⟩ := p
      rw [hld] at h
      have hst2 : getVal st2.module_dependencies m = some ds :=
        loadDepsF_pres _ m
          (fun s => getVal s.module_dependencies m = some ds)
          (fun s e hs => hs) ds
          (fun s dd rr ss _ hh hPs =>
            loadModuleRec_mdeps env m f ds hfile hdeps fuel s dd rr ss hh hPs)
          _ b st2 hld hrec
      cases b with
      | false =>
        dsimp only at h
        simp only [Option.some.injEq, Prod.mk.injEq] at h
        rw [← h.2]
        exact hst2
      | true =>
        dsimp only at h
        simp only [Option.some.injEq] at h
        have hst : st' = (registerPhase env m f st2).2 := by rw [h]
        rw [hst, registerPhase_mdeps]
        exact hst2
  · intro st' h d hd
    rw [loadModuleRec_unfold_deps env m f ds fuel st hnl hreq hfile hspec
      hexec hdeps] at h
    cases hld : loadDepsF (fun s dd => loadModuleRec env fuel s dd) m
        (recordDeps st m (some ds)) ds with
    | none => rw [hld] at h; simp at h
    | some p =>
      obtain ⟨b, st2⟩ := p
      rw [hld] at h
      cases b with
      | false =>
        dsimp only at h
        simp at h
      | true =>
        dsimp only at h
        simp only [Option.some.injEq] at h
        have hst2 : (getVal st2.modules d).isSome = true :=
          loadDepsF_allLoaded _ m
            (fun s dd rr ss k hh hs =>
              loadModuleRec_mono env k fuel s dd rr ss hh hs)
            (fun s dd ss hh => loadModuleRec_true_isSome env fuel s dd ss hh)
            ds _ st2 hld d hd
        have hst : st' = (registerPhase env m f st2).2 := by rw [h]
        rw [hst]
        exact registerPhase_mono env m f st2 d hst2
  · intro hnd st1 hld
    constructor
    · rw [loadModuleRec_unfold_deps env m f ds fuel st hnl hreq hfile hspec
        hexec hdeps, hld]
    · have hmds : m ∉ ds := by
        intro hmem
        exact hnd (m, f) (getVal_mem hfile) ds hdeps hmem
      have hinit : getVal (recordDeps st m (some ds)).modules m = none := by
        rw [recordDeps_modules]
        exact hnl
      exact loadDepsF_pres _ m (fun s => getVal s.modules m = none)
        (fun s e hs => hs) ds
        (fun s dd rr ss hdd hh hPs =>
          loadModuleRec_notLoaded env m hnd fuel s dd rr ss
            (fun hc => hmds (hc ▸ hdd)) hh hPs)
        _ false st1 hld hinit

end Bot

namespace Bot

/-- Witness for `load_module_dependency_tracking`: loading `m` (which
depends on `a`) from the empty state records the list, loads `a`, and the
missing-file environment fails without registering `m`. -/
theorem load_module_dependency_tracking_witness :
    getVal stC4res.module_dependencies "m" = some ["a"] ∧
    (getVal stC4res.modules "a").isSome = true ∧
    (loadModuleRec envC4bad (1 + 1) stEmpty "m" = some (false, stC4bad) ∧
      getVal stC4bad.modules "m" = none) :=
  ⟨(load_module_dependency_tracking envC4 "m" fDepsA2 ["a"] 1 stEmpty
      (by decide) (by decide) (by decide) (by decide) (by decide)
      (by decide)).1 true stC4res (by decide),
    (load_module_dependency_tracking envC4 "m" fDepsA2 ["a"] 1 stEmpty
      (by decide) (by decide) (by decide) (by decide) (by decide)
      (by decide)).2.1 stC4res (by decide) "a" (by decide),
    (load_module_dependency_tracking envC4bad "m" fDepsA2 ["a"] 1 stEmpty
      (by decide) (by decide) (by decide) (by decide) (by decide)
      (by decide)).2.2 (by decide) stC4bad (by decide)⟩

end Bot

/-! ## C3: duplicate-cog guard -/

namespace Bot

theorem count_setup_append_ne (tr : List Event) (d m : String)
    (hdm : d ≠ m) :
    (tr ++ [Event.setupEvt d]).count (Event.setupEvt m) =
      tr.count (Event.setupEvt m) := by
  simp [List.count_singleton, hdm]

/-- When the cog named in `m`'s file is already registered, the
registration tail refuses and leaves cogs, modules and trace alone. -/
theorem registerPhase_blocked (env : Env) (m : String) (f' : ModuleFile)
    (st2 : St) (c : String) (hc : extract_cog_name env m = some c)
    (hne : c.isEmpty = false) (hmem : c ∈ st2.loaded_cogs) :
    (registerPhase env m f' st2).1 = false ∧
    (registerPhase env m f' st2).2.loaded_cogs = st2.loaded_cogs ∧
    (registerPhase env m f' st2).2.modules = st2.modules ∧
    (registerPhase env m f' st2).2.trace = st2.trace := by
  unfold registerPhase
  dsimp only
  by_cases hs : f'.has_setup = false
  · simp [hs, pushError]
  · rw [if_neg hs]
    have hblock : (match extract_cog_name env m with
        | some cc => !cc.isEmpty && st2.loaded_cogs.contains cc
        | none => false) = true := by
      rw [hc]
      simp [hne, List.elem_iff, hmem]
    rw [if_pos hblock]
    simp

/-- The invariant walk for the duplicate-cog guard: once the cog `c` of
`m`'s file is registered and `m` is unloaded, any `_load_module` call
keeps `c` registered, keeps `m` unloaded, never runs `m`'s setup, and a
call on `m` itself returns `False`. -/
theorem loadModuleRec_cogBlocked (env : Env) (m : String) (f : ModuleFile)
    (c : String) (hfile : getVal env.files m = some f)
    (hcog : f.cog_name = some c) (hne : c.isEmpty = false) (k : Nat) :
    ∀ fuel st d r st', loadModuleRec env fuel st d = some (r, st') →
      (c ∈ st.loaded_cogs ∧ getVal st.modules m = none ∧
        st.trace.count (Event.setupEvt m) = k) →
      ((c ∈ st'.loaded_cogs ∧ getVal st'.modules m = none ∧
        st'.trace.count (Event.setupEvt m) = k) ∧ (d = m → r = false)) := by
  have hext : extract_cog_name env m = some c := by
    simp [extract_cog_name, hfile, hcog]
  intro fuel
  induction fuel with
  | zero =>
    intro st d r st' h
    simp [loadModuleRec] at h
  | succ n ih =>
    intro st d r st' h hP
    rw [loadModuleRec] at h
    by_cases h1 : (getVal st.modules d).isSome
    · rw [if_pos h1] at h
      simp only [Option.some.injEq, Prod.mk.injEq] at h
      refine ⟨by rw [← h.2]; exact hP, ?_⟩
      intro hdm
      subst hdm
      rw [hP.2.1] at h1
      simp at h1
    · rw [if_neg h1] at h
      by_cases h2 : check_module_requirements env d = false
      · rw [if_pos h2] at h
        simp only [Option.some.injEq, Prod.mk.injEq] at h
        exact ⟨by rw [← h.2]; exact hP, fun _ => h.1.symm⟩
      · rw [if_neg h2] at h
        cases hf : getVal env.files d with
        | none =>
          rw [hf] at h
          dsimp only at h
          simp only [Option.some.injEq, Prod.mk.injEq] at h
          exact ⟨by rw [← h.2]; exact hP, fun _ => h.1.symm⟩
        | some fd =>
          rw [hf] at h
          dsimp only at h
          by_cases h3 : fd.spec_ok = false
          · rw [if_pos h3] at h
            simp only [Option.some.injEq, Prod.mk.injEq] at h
            exact ⟨by rw [← h.2]; exact hP, fun _ => h.1.symm⟩
          · rw [if_neg h3] at h
            by_cases h4 : fd.exec_ok = false
            · rw [if_pos h4] at h
              simp only [Option.some.injEq, Prod.mk.injEq] at h
              exact ⟨by rw [← h.2]; exact hP, fun _ => h.1.symm⟩
            · rw [if_neg h4] at h
              have hreg : ∀ s2 : St,
                  (c ∈ s2.loaded_cogs ∧ getVal s2.modules m = none ∧
                    s2.trace.count (Event.setupEvt m) = k) →
                  ((c ∈ (registerPhase env d fd s2).2.loaded_cogs ∧
                    getVal (registerPhase env d fd s2).2.modules m = none ∧
                    (registerPhase env d fd s2).2.trace.count
                      (Event.setupEvt m) = k) ∧
                    (d = m → (registerPhase env d fd s2).1 = false)) := by
                intro s2 hs2
                by_cases hdm : d = m
                · subst hdm
                  have hblk := registerPhase_blocked env d fd s2 c hext hne
                    hs2.1
                  refine ⟨⟨?_, ?_, ?_⟩, fun _ => hblk.1⟩
                  · rw [hblk.2.1]; exact hs2.1
                  · rw [hblk.2.2.1]; exact hs2.2.1
                  · rw [hblk.2.2.2]; exact hs2.2.2
                · refine ⟨registerPhase_pres env d fd s2
                    (fun s => c ∈ s.loaded_cogs ∧
                      getVal s.modules m = none ∧
                      s.trace.count (Event.setupEvt m) = k)
                    (fun s e hs => hs) (fun s hs => ?_) (fun s c' hs => ?_)
                    (fun s hs => ?_) hs2, fun hc => absurd hc hdm⟩
                  · exact ⟨hs.1, hs.2.1, by
                      show (s.trace ++ [Event.setupEvt d]).count
                        (Event.setupEvt m) = k
                      rw [count_setup_append_ne s.trace d m hdm]
                      exact hs.2.2⟩
                  · exact ⟨List.mem_append_left _ hs.1, hs.2.1, hs.2.2⟩
                  · refine ⟨hs.1, ?_, hs.2.2⟩
                    show getVal (dictSet s.modules d fd) m = none
                    rw [getVal_dictSet,
                      if_neg (fun hcm : m = d => hdm hcm.symm)]
                    exact hs.2.1
              cases hd : fd.deps with
              | none =>
                rw [hd] at h
                dsimp only at h
                simp only [Option.some.injEq] at h
                have hr : r = (registerPhase env d fd
                    (recordDeps st d none)).1 := by rw [h]
                have hst : st' = (registerPhase env d fd
                    (recordDeps st d none)).2 := by rw [h]
                rw [hr, hst]
                exact hreg _ hP
              | some ds =>
                rw [hd] at h
                dsimp only at h
                cases hld : loadDepsF (fun s dd => loadModuleRec env n s dd)
                    d (recordDeps st d (some ds)) ds with
                | none => rw [hld] at h; simp at h
                | some p =>
                  obtain ⟨b, st2⟩ := p
                  rw [hld] at h
                  have hinit : c ∈ (recordDeps st d (some ds)).loaded_cogs ∧
                      getVal (recordDeps st d (some ds)).modules m = none ∧
                      (recordDeps st d (some ds)).trace.count
                        (Event.setupEvt m) = k := by
                    rw [recordDeps_cogs, recordDeps_modules, recordDeps_trace]
                    exact hP
                  have hP2 : c ∈ st2.loaded_cogs ∧
                      getVal st2.modules m = none ∧
                      st2.trace.count (Event.setupEvt m) = k :=
                    loadDepsF_pres _ d
                      (fun s => c ∈ s.loaded_cogs ∧
                        getVal s.modules m = none ∧
                        s.trace.count (Event.setupEvt m) = k)
                      (fun s e hs => hs) ds
                      (fun s dd rr ss _ hh hPs => (ih s dd rr ss hh hPs).1)
                      _ b st2 hld hinit
                  cases b with
                  | false =>
                    dsimp only at h
                    simp only [Option.some.injEq, Prod.mk.injEq] at h
                    exact ⟨by rw [← h.2]; exact hP2, fun _ => h.1.symm⟩
                  | true =>
                    dsimp only at h
                    simp only [Option.some.injEq] at h
                    have hr : r = (registerPhase env d fd st2).1 := by
                      rw [h]
                    have hst : st' = (registerPhase env d fd st2).2 := by
                      rw [h]
                    rw [hr, hst]
                    exact hreg _ hP2

/-- C3: a module whose extracted cog name is already registered is
refused: `_load_module` returns `False`, does not add the module, and
never runs its setup function. -/
theorem duplicate_cog_refused (env : Env) (m : String) (f : ModuleFile)
    (c : String) (hfile : getVal env.files m = some f)
    (hcog : f.cog_name = some c) (hne : c.isEmpty = false)
    (fuel : Nat) (st : St) (r : Bool) (st' : St)
    (hc : c ∈ st.loaded_cogs) (hnl : getVal st.modules m = none)
    (h : loadModuleRec env fuel st m = some (r, st')) :
    r = false ∧ getVal st'.modules m = none ∧
    setupCount m st'.trace = setupCount m st.trace := by
  have hw := loadModuleRec_cogBlocked env m f c hfile hcog hne
    (st.trace.count (Event.setupEvt m)) fuel st m r st' h ⟨hc, hnl, rfl⟩
  exact ⟨hw.2 rfl, hw.1.2.1, hw.1.2.2⟩

/-- Witness for `duplicate_cog_refused`: in `envC3`, module `m` names cog
`C`, which `stC3` has already registered. -/
theorem duplicate_cog_refused_witness :
    false = false ∧ getVal stC3.modules "m" = none ∧
    setupCount "m" stC3.trace = setupCount "m" stC3.trace :=
  duplicate_cog_refused envC3 "m" fCogC "C" (by decide) (by decide)
    (by decide) 1 stC3 false stC3 (by decide) (by decide) (by decide)

end Bot

/-! ## C5: command-tree synchronization -/

namespace Bot

theorem teardownStep_syncCount (s : St) (m : String) (v : ModuleFile) :
    syncCount (teardownStep s m v).trace = syncCount s.trace := by
  unfold teardownStep
  split
  · show syncCount (s.trace ++ [Event.teardownEvt m]) = syncCount s.trace
    exact syncCount_append_teardown s.trace m
  · rfl

theorem unload_module_syncCount (env : Env) (st : St) (m : String) :
    syncCount (unload_module env st m).2.trace =
      syncCount st.trace +
        (if (unload_module env st m).1 = true then 1 else 0) := by
  cases hv : getVal st.modules m with
  | none => simp [unload_module, hv]
  | some modv =>
    by_cases hg1 : dependent_modules st m ≠ [] ∧ m ∉ st.required_modules
    · simp [unload_module, hv, hg1]
    · by_cases hg2 : m ∈ st.required_modules
      · simp [unload_module, hv, hg1, hg2]
      · have hdm : dependent_modules st m = [] := by
          by_contra hne
          exact hg1 ⟨hne, hg2⟩
        have h1 : (unload_module env st m).1 = true := by
          simp [unload_module, hv, hg1, hg2, hdm]
        have htr : (unload_module env st m).2.trace =
            (cogErase env (removeModuleCommands
              (teardownStep st m modv) m) m).trace ++ [Event.syncEvt] := by
          simp [unload_module, hv, hg1, hg2, hdm, pushEvent]
        have h2 : syncCount (unload_module env st m).2.trace =
            syncCount st.trace + 1 := by
          rw [htr, syncCount_append_sync, cogErase_trace,
            removeModuleCommands_trace, teardownStep_syncCount]
        rw [h2, h1]
        simp

theorem load_module_syncCount (env : Env) (fuel : Nat) (st : St)
    (m : String) (r : Bool) (st' : St)
    (h : load_module env fuel st m = some (r, st')) :
    syncCount st'.trace = syncCount st.trace +
      (if (getVal st.modules m).isSome = true then 0
       else if r = true then 1 else 0) := by
  unfold load_module at h
  by_cases hs : (getVal st.modules m).isSome
  · rw [if_pos hs] at h
    simp only [Option.some.injEq, Prod.mk.injEq] at h
    rw [← h.2]
    simp [hs]
  · rw [if_neg hs] at h
    cases hlm : loadModuleRec env fuel st m with
    | none => rw [hlm] at h; simp at h
    | some p =>
      obtain ⟨b, s1⟩ := p
      rw [hlm] at h
      have hsync := loadModuleRec_syncCount env fuel st m b s1 hlm
      cases b with
      | false =>
        dsimp only at h
        simp only [Option.some.injEq, Prod.mk.injEq] at h
        rw [← h.2, ← h.1]
        simp only [hs, Bool.false_eq_true, if_false]
        simpa using hsync
      | true =>
        dsimp only at h
        simp only [Option.some.injEq, Prod.mk.injEq] at h
        rw [← h.2, ← h.1]
        simp only [hs, Bool.false_eq_true, if_false, if_true]
        show syncCount (s1.trace ++ [Event.syncEvt]) = syncCount st.trace + 1
        rw [syncCount_append_sync, hsync]

theorem reload_module_syncCount (env : Env) (fuel : Nat) (st : St)
    (m : String) (r : Bool) (st' : St)
    (hs : (getVal st.modules m).isSome = true)
    (h : reload_module env fuel st m = some (r, st')) :
    syncCount st'.trace =
      syncCount (unloadAll env st (dependent_modules st m)).trace +
        (if r = true then 1 else 0) := by
  obtain ⟨modv0, hv0⟩ := Option.isSome_iff_exists.mp hs
  unfold reload_module at h
  rw [hv0] at h
  dsimp only at h
  split at h
  · simp at h
  next modv hv1 =>
    split at h
    · simp at h
    next b st6 hlm =>
      have hsync6 : syncCount st6.trace =
          syncCount (unloadAll env st (dependent_modules st m)).trace := by
        rw [loadModuleRec_syncCount env fuel _ m b st6 hlm]
        show syncCount (cogErase env (removeModuleCommands
          (teardownStep (unloadAll env st (dependent_modules st m)) m modv)
            m) m).trace = _
        rw [cogErase_trace, removeModuleCommands_trace,
          teardownStep_syncCount]
      split at h
      · simp at h
      next st7 hla =>
        have hsync7 : syncCount st7.trace = syncCount st6.trace :=
          loadAllF_pres _
            (fun s => syncCount s.trace = syncCount st6.trace)
            (fun s d rr s' hh hp => by
              show syncCount s'.trace = syncCount st6.trace
              rw [loadModuleRec_syncCount env fuel s d rr s' hh]
              exact hp)
            _ st6 st7 hla rfl
        split at h
        next hb =>
          simp only [Option.some.injEq, Prod.mk.injEq] at h
          rw [← h.2, ← h.1]
          show syncCount (st7.trace ++ [Event.syncEvt]) = _
          rw [syncCount_append_sync, hsync7, hsync6]
          simp [hb]
        next hb =>
          simp only [Option.some.injEq, Prod.mk.injEq] at h
          rw [← h.2, ← h.1]
          rw [hsync7, hsync6]
          simp [hb]

/-- C5 counterexample: reloading `a` while `b` depends on it attempts
`bot.tree.sync` twice (once inside the dependent's `unload_module`, once
at the end), not exactly once. -/
theorem reload_module_sync_cex :
    (reload_module envC5 5 stC5 "a").map
      (fun p => (p.1, syncCount p.2.trace)) = some (true, 2) := by
  decide

/-- C5 amended: `load_module` attempts one sync exactly when the
underlying `_load_module` ran and succeeded (none when the module was
already loaded or the load failed); a successful `unload_module` attempts
exactly one sync and a failed one none; `reload_module` attempts the
syncs of its dependent-module `unload_module` calls plus one more exactly
when the reload result is `True`. -/
theorem sync_attempts (env : Env) :
    (∀ fuel st m r st', load_module env fuel st m = some (r, st') →
      syncCount st'.trace = syncCount st.trace +
        (if (getVal st.modules m).isSome = true then 0
         else if r = true then 1 else 0)) ∧
    (∀ st m, syncCount (unload_module env st m).2.trace =
      syncCount st.trace +
        (if (unload_module env st m).1 = true then 1 else 0)) ∧
    (∀ fuel st m r st', (getVal st.modules m).isSome = true →
      reload_module env fuel st m = some (r, st') →
      syncCount st'.trace =
        syncCount (unloadAll env st (dependent_modules st m)).trace +
          (if r = true then 1 else 0)) :=
  ⟨fun fuel st m r st' h => load_module_syncCount env fuel st m r st' h,
    fun st m => unload_module_syncCount env st m,
    fun fuel st m r st' hs h =>
      reload_module_syncCount env fuel st m r st' hs h⟩

/-- Witness for `sync_attempts` at concrete states: an already-loaded
`load_module`, a successful `unload_module`, and the reload of `a` with
dependent `b`. -/
theorem sync_attempts_witness :
    (syncCount stPlainB.trace = syncCount stPlainB.trace +
      (if (getVal stPlainB.modules "b").isSome = true then 0
       else if true = true then 1 else 0)) ∧
    (syncCount (unload_module envC5 stPlainB "b").2.trace =
      syncCount stPlainB.trace +
        (if (unload_module envC5 stPlainB "b").1 = true then 1 else 0)) ∧
    (syncCount stC5res.trace =
      syncCount (unloadAll envC5 stC5 (dependent_modules stC5 "a")).trace +
        (if true = true then 1 else 0)) :=
  ⟨(sync_attempts envC5).1 0 stPlainB "b" true stPlainB (by decide),
    (sync_attempts envC5).2.1 stPlainB "b",
    (sync_attempts envC5).2.2 5 stC5 "a" true stC5res (by decide)
      (by decide)⟩

end Bot
